import Mathlib

/-!
# Shallow embedding of the AgenticAssistant core

This file embeds the routing / context-assembly / memory-extraction core of
the AgenticAssistant repository (Python) into Lean and proves, or refutes,
the specification claims about it.

Modelling conventions:
* Python strings are Lean `String`s; where character-level work is needed we
  pass through `String.toList`.
* The SQLite tables are modelled as Lean lists of rows, kept in insertion
  order.  `add_conversation` appends rows stamped with `CURRENT_TIMESTAMP`,
  and timestamps are monotone in insertion order, so the SQL
  `ORDER BY timestamp DESC` over a user's rows is modelled as `List.reverse`
  of the filtered rows (theorems that depend on this carry an explicit
  sortedness hypothesis on the table).
* Calls to the text-generation collaborator (LLM), the web-search and the
  image-generation collaborators are opaque capabilities in the source; they
  enter the model as oracle parameters (the text the collaborator returned,
  or the chunk list it streamed).  Persistence calls are recorded as
  explicit write events so that "exactly once" claims are about traces.
* Python exceptions raised by a collaborator are modelled with `Except`.
-/

namespace Assistant

/-! ## Python string primitives used by the source -/

/-- Python `str.lower` on a character list (the source only lowercases
ASCII keyword text). -/
def toLowerL (cs : List Char) : List Char := cs.map Char.toLower

/-- Python `str.lower` on a string. -/
def lowerS (s : String) : String := String.mk (toLowerL s.toList)

/-- Python `str.upper` on a string. -/
def upperS (s : String) : String := String.mk (s.toList.map Char.toUpper)

/-- Does `hay` start with `needle`? (helper for substring containment). -/
def startsWithL (needle hay : List Char) : Bool :=
  match needle, hay with
  | [], _ => true
  | _ :: _, [] => false
  | a :: as, b :: bs => a == b && startsWithL as bs

/-- Python `needle in hay` (substring containment) on character lists. -/
def hasSubL (needle : List Char) : List Char → Bool
  | [] => startsWithL needle []
  | c :: cs => startsWithL needle (c :: cs) || hasSubL needle cs

/-- Python `needle in hay` on strings. -/
def pyIn (needle hay : String) : Bool := hasSubL needle.toList hay.toList

/-- Python `any(kw in m for kw in kws)` where `m` is already lowercased. -/
def anyKw (m : String) (kws : List String) : Bool := kws.any (fun w => pyIn w m)

/-- Python `s.find(c)`: index of the first occurrence, as an `Option`. -/
def firstIdx (c : Char) : List Char → Option Nat
  | [] => none
  | x :: xs => if x == c then some 0 else (firstIdx c xs).map (· + 1)

/-- Python `s.rfind(c)`: index of the last occurrence, as an `Option`. -/
def lastIdx (c : Char) (cs : List Char) : Option Nat :=
  (firstIdx c cs.reverse).map (fun i => cs.length - 1 - i)

/-! ## Data model (database/models.py) -/

/-- One row of the `conversations` table.  Timestamps are modelled as `Nat`
ticks of the database clock. -/
structure Conversation where
  conversation_id : Nat
  user_id : Nat
  timestamp : Nat
  agent_type : String
  message : String
  response : String
  metadata : Option String
deriving Repr, DecidableEq

/-- One row of the `memory` table (`UNIQUE(user_id, key)` in the schema). -/
structure MemRow where
  memory_id : Nat
  user_id : Nat
  key : String
  value : String
  context : Option String
  last_updated : Nat
deriving Repr, DecidableEq

/-- One row of the `tasks` table. -/
structure Task where
  task_id : Nat
  user_id : Nat
  title : String
  description : Option String
  priority : String
  status : String
  due_date : Option String
deriving Repr, DecidableEq

/-! ## DatabaseManager (database/db_manager.py) -/

/-- `DatabaseManager.add_conversation`: INSERT a new row; `CURRENT_TIMESTAMP`
is passed in as `now` (monotone in insertion order). -/
def add_conversation (table : List Conversation) (now : Nat) (user_id : Nat)
    (agent_type message response : String) (metadata : Option String) :
    List Conversation :=
  table ++ [{ conversation_id := table.length + 1, user_id := user_id,
              timestamp := now, agent_type := agent_type, message := message,
              response := response, metadata := metadata }]

/-- The WHERE clause of `get_conversation_history`: `user_id = ?` and,
when an `agent_type` is supplied, `AND agent_type = ?` (the source has one
SQL branch per case; the optional predicate covers both). -/
def convMatches (user_id : Nat) (agent_type : Option String)
    (c : Conversation) : Bool :=
  c.user_id == user_id &&
    (match agent_type with
     | some a => c.agent_type == a
     | none => true)

/-- `DatabaseManager.get_conversation_history`: `SELECT ... WHERE ...
ORDER BY timestamp DESC LIMIT ?`, then the Python layer returns
`list(reversed(rows))` with the comment "Return in chronological order".
The table is kept in ascending timestamp order (append-only, monotone
clock), so `ORDER BY timestamp DESC` is the reverse of the filtered
rows. -/
def get_conversation_history (table : List Conversation) (user_id : Nat)
    (limit : Nat) (agent_type : Option String) : List Conversation :=
  let rows :=
    ((table.filter (convMatches user_id agent_type)).reverse).take limit
  rows.reverse

/-- `memMatches u k r`: the `WHERE user_id = ? AND key = ?` predicate. -/
def memMatches (user_id : Nat) (key : String) (r : MemRow) : Bool :=
  r.user_id == user_id && r.key == key

/-- `DatabaseManager.set_memory`: `INSERT ... ON CONFLICT(user_id, key)
DO UPDATE SET value=?, context=?, last_updated=CURRENT_TIMESTAMP`. -/
def set_memory (table : List MemRow) (now : Nat) (user_id : Nat)
    (key value : String) (context : Option String) : List MemRow :=
  if table.any (memMatches user_id key) then
    table.map (fun r =>
      if memMatches user_id key r then
        { r with value := value, context := context, last_updated := now }
      else r)
  else
    table ++ [{ memory_id := table.length + 1, user_id := user_id, key := key,
                value := value, context := context, last_updated := now }]

/-- `DatabaseManager.get_memory`: `SELECT * FROM memory WHERE user_id = ?
AND key = ?` (the schema makes the row unique). -/
def get_memory (table : List MemRow) (user_id : Nat) (key : String) :
    Option MemRow :=
  table.find? (memMatches user_id key)

/-- Insert one row into a list kept descending by `last_updated`
(helper realising `ORDER BY last_updated DESC`). -/
def insertByUpdatedDesc (r : MemRow) : List MemRow → List MemRow
  | [] => [r]
  | x :: xs =>
    if x.last_updated ≤ r.last_updated then r :: x :: xs
    else x :: insertByUpdatedDesc r xs

/-- `DatabaseManager.get_all_memories`: `SELECT * FROM memory WHERE
user_id = ? ORDER BY last_updated DESC`. -/
def get_all_memories (table : List MemRow) (user_id : Nat) : List MemRow :=
  (table.filter (fun r => r.user_id == user_id)).foldr insertByUpdatedDesc []

/-! ## BaseAgent context assembly (agents/base_agent.py) -/

/-- Character ceiling used by `BaseAgent._trim_context`. -/
def MAX_MESSAGE_LENGTH : Nat := 1500

/-- Turn budget used by `BaseAgent._trim_context`. -/
def MAX_CONVERSATIONS : Nat := 6

/-- The per-field truncation of `_trim_context`:
`conv.message = conv.message[:1500] + "..."` when over the ceiling. -/
def truncField (s : String) : String :=
  if s.length > MAX_MESSAGE_LENGTH then s.take MAX_MESSAGE_LENGTH ++ "..." else s

/-- `BaseAgent._trim_context`: keep the last 6 fetched rows
(`conversations[-6:]`) and truncate every message/response to 1500
characters. -/
def _trim_context (conversations : List Conversation) : List Conversation :=
  let conversations :=
    if conversations.length > MAX_CONVERSATIONS then
      conversations.drop (conversations.length - MAX_CONVERSATIONS)
    else conversations
  conversations.map (fun c =>
    { c with message := truncField c.message, response := truncField c.response })

/-- The in-memory database state the agents read. -/
structure Db where
  conversations : List Conversation
  memory : List MemRow
deriving Repr

/-- `BaseAgent.get_user_context`: fetch 20 turns, trim, fetch memories,
render `- key: value` lines, then the history block over
`enumerate(reversed(conversations))`, exempting index `len - 1` from the
extra 200-character response cut. -/
def get_user_context (db : Db) (user_id : Nat) : String :=
  let conversations := get_conversation_history db.conversations user_id 20 none
  let conversations := _trim_context conversations
  let memories := get_all_memories db.memory user_id
  let memoryParts : List String :=
    if memories.isEmpty then []
    else "User Preferences and Information:" ::
      (memories.take 10).map (fun m => "- " ++ m.key ++ ": " ++ m.value)
  let convParts : List String :=
    if conversations.isEmpty then []
    else "\nRecent Conversation History:" ::
      (conversations.reverse.enum.map (fun p =>
        ["User: " ++ p.2.message,
         if p.1 == conversations.length - 1 then "Assistant: " ++ p.2.response
         else "Assistant: " ++ p.2.response.take 200 ++ "..."])).flatten
  let context_parts := memoryParts ++ convParts
  if context_parts.isEmpty then "No previous context available."
  else String.intercalate "\n" context_parts

/-! ## Python/JSON values and `json.loads` (llm/llm_client.py uses the
standard-library `json` module; we model the JSON fragment the source can
produce: objects, arrays, strings with simple escapes, integers, booleans
and null.  `\uXXXX` escapes and floating-point numbers are outside the
modelled fragment; no claim exercises them). -/

/-- A Python value, as produced by `json.loads`. -/
inductive PyVal where
  | pnull
  | pbool (b : Bool)
  | pint (n : Int)
  | pstr (s : String)
  | plist (items : List PyVal)
  | pdict (entries : List (String × PyVal))
deriving Repr

/-- Python truthiness (`if x:`) of the modelled values. -/
def pyTruthy : PyVal → Bool
  | .pnull => false
  | .pbool b => b
  | .pint n => n != 0
  | .pstr s => !s.isEmpty
  | .plist items => !items.isEmpty
  | .pdict entries => !entries.isEmpty

/-- Python `d.get(k)` on a JSON object; a duplicated key keeps the last
occurrence, as `dict` assignment does. -/
def pyGet (entries : List (String × PyVal)) (k : String) : Option PyVal :=
  (entries.reverse.find? (fun e => e.1 == k)).map (·.2)

/-- Python `k in d` on a JSON object. -/
def memHas (entries : List (String × PyVal)) (k : String) : Bool :=
  entries.any (fun e => e.1 == k)

/-- Python `d.get(k, default)` restricted to string fields; the claims only
exercise string-valued fields. -/
def pyGetStr (entries : List (String × PyVal)) (k : String) (dflt : String) :
    String :=
  match pyGet entries k with
  | some (.pstr s) => s
  | _ => dflt

/-- Python `d.get(k)` restricted to optional string fields. -/
def pyGetStrOpt (entries : List (String × PyVal)) (k : String) :
    Option String :=
  match pyGet entries k with
  | some (.pstr s) => some s
  | _ => none

/-- JSON whitespace (`json.loads` skips space, tab, newline, return). -/
def isWsChar (c : Char) : Bool :=
  c == ' ' || c == '\t' || c == '\n' || c == '\r'

/-- Skip JSON whitespace. -/
def skipWs (cs : List Char) : List Char := cs.dropWhile isWsChar

/-- The table of one-character JSON string escapes (`\uXXXX` is outside
the model). -/
def unescPairs : List (Char × Char) :=
  [('"', '"'), ('\\', '\\'), ('/', '/'), ('b', '\x08'), ('f', '\x0C'),
   ('n', '\n'), ('r', '\r'), ('t', '\t')]

/-- Decode one JSON string escape via the table. -/
def unescChar (c : Char) : Option Char :=
  (unescPairs.find? (fun p => p.1 == c)).map (fun p => p.2)

/-- Parse the body of a JSON string (after the opening quote); returns the
decoded characters and the remaining input.  Fuel-indexed (the callers pass
the input length, which dominates the step count). -/
def parseStrBody : Nat → List Char → Option (List Char × List Char)
  | 0, _ => none
  | _ + 1, [] => none
  | fl + 1, c :: rest =>
    if c == '"' then some ([], rest)
    else if c == '\\' then
      match rest with
      | [] => none
      | e :: rest2 =>
        match unescChar e with
        | some d => (parseStrBody fl rest2).map (fun p => (d :: p.1, p.2))
        | none => none
    else (parseStrBody fl rest).map (fun p => (c :: p.1, p.2))

/-- Parse a JSON integer (optional minus, one or more digits); a following
`.`, `e` or `E` would be a float, which is outside the model. -/
def parseNum (cs : List Char) : Option (PyVal × List Char) :=
  let (neg, body) :=
    match cs with
    | '-' :: rest => (true, rest)
    | _ => (false, cs)
  let digits := body.takeWhile Char.isDigit
  let rest := body.dropWhile Char.isDigit
  if digits.isEmpty then none
  else
    match rest with
    | '.' :: _ => none
    | 'e' :: _ => none
    | 'E' :: _ => none
    | _ =>
      let n : Int := digits.foldl (fun a c => a * 10 + (c.toNat - 48)) (0 : Int)
      some (.pint (if neg then -n else n), rest)

/-- Does the input start with the given JSON keyword (`true` / `false` /
`null`)? -/
def beginsKw (kw : List Char) (cs : List Char) : Bool := startsWithL kw cs

mutual

/-- Fuel-indexed recursive-descent JSON value parser. -/
def parseVal : Nat → List Char → Option (PyVal × List Char)
  | 0, _ => none
  | fl + 1, cs =>
    match skipWs cs with
    | [] => none
    | c :: rest =>
      if c == '{' then
        match skipWs rest with
        | [] => none
        | d :: r2 =>
          if d == '}' then some (.pdict [], r2)
          else (parseMembers fl (d :: r2)).map (fun p => (PyVal.pdict p.1, p.2))
      else if c == '[' then
        match skipWs rest with
        | [] => none
        | d :: r2 =>
          if d == ']' then some (.plist [], r2)
          else (parseItems fl (d :: r2)).map (fun p => (PyVal.plist p.1, p.2))
      else if c == '"' then
        (parseStrBody rest.length rest).map
          (fun p => (PyVal.pstr (String.mk p.1), p.2))
      else if beginsKw ['t', 'r', 'u', 'e'] (c :: rest) then
        some (.pbool true, (c :: rest).drop 4)
      else if beginsKw ['f', 'a', 'l', 's', 'e'] (c :: rest) then
        some (.pbool false, (c :: rest).drop 5)
      else if beginsKw ['n', 'u', 'l', 'l'] (c :: rest) then
        some (.pnull, (c :: rest).drop 4)
      else if c == '-' || c.isDigit then parseNum (c :: rest)
      else none

/-- Parse the members of a JSON object, positioned at the first key. -/
def parseMembers : Nat → List Char → Option (List (String × PyVal) × List Char)
  | 0, _ => none
  | fl + 1, cs =>
    match cs with
    | [] => none
    | c :: rest =>
      if c == '"' then
        match parseStrBody rest.length rest with
        | some (k, r1) =>
          match skipWs r1 with
          | [] => none
          | d :: r2 =>
            if d == ':' then
              match parseVal fl r2 with
              | some (v, r3) =>
                match skipWs r3 with
                | [] => none
                | e :: r4 =>
                  if e == ',' then
                    (parseMembers fl (skipWs r4)).map
                      (fun p => ((String.mk k, v) :: p.1, p.2))
                  else if e == '}' then some ([(String.mk k, v)], r4)
                  else none
              | none => none
            else none
        | none => none
      else none

/-- Parse the items of a JSON array, positioned at the first item. -/
def parseItems : Nat → List Char → Option (List PyVal × List Char)
  | 0, _ => none
  | fl + 1, cs =>
    match parseVal fl cs with
    | some (v, r1) =>
      match skipWs r1 with
      | [] => none
      | d :: r2 =>
        if d == ',' then (parseItems fl r2).map (fun p => (v :: p.1, p.2))
        else if d == ']' then some ([v], r2)
        else none
    | none => none

end

/-- `json.loads`: parse one JSON document; trailing non-whitespace is a
`JSONDecodeError`.  The fuel `length + 1` dominates the recursion depth,
which consumes at least one character per level. -/
def jsonLoads (cs : List Char) : Option PyVal :=
  match parseVal (cs.length + 1) cs with
  | some (v, rest) => if (skipWs rest).isEmpty then some v else none
  | none => none

/-- `LLMClient.parse_json_response`: slice from the first `{` to the last
`}` inclusive and `json.loads` the slice; `None` when the slice is empty,
absent, or not valid JSON.  (`start != -1 and end > start` with
`end = rfind + 1` is exactly the guard below.) -/
def parse_json_response (response : String) : Option PyVal :=
  let cs := response.toList
  match firstIdx '{' cs, lastIdx '}' cs with
  | some s, some e =>
    if s < e + 1 then jsonLoads ((cs.drop s).take (e + 1 - s)) else none
  | _, _ => none

/-! ## Persistence events

The agents' writes are recorded as explicit events so that "persists exactly
once" claims are statements about traces. -/

/-- One write against the storage collaborator. -/
inductive DbWrite where
  | addConv (user_id : Nat) (agent_type message response : String)
      (metadata : Option (List (String × PyVal)))
  | newTask (user_id : Nat) (title : String) (description : Option String)
      (priority : String) (due_date : Option String)
  | putGameState (user_id : Nat) (active_game : Option String)
deriving Repr

/-- Is this write an `add_conversation` call? -/
def isAddConv : DbWrite → Bool
  | .addConv _ _ _ _ _ => true
  | _ => false

/-- Is this write a `set_game_state` call? -/
def isPutGameState : DbWrite → Bool
  | .putGameState _ _ => true
  | _ => false

/-- One step of a Python generator: either a yielded chunk or an internal
write performed while the consumer pulls the next item. -/
inductive StreamItem where
  | yieldChunk (s : String)
  | write (w : DbWrite)
deriving Repr

/-- Is this stream step an `add_conversation` write? -/
def isAddConvStep : StreamItem → Bool
  | .write w => isAddConv w
  | _ => false

/-- Is this stream step a `set_game_state` write? -/
def isPutGameStateStep : StreamItem → Bool
  | .write w => isPutGameState w
  | _ => false

/-- The chunks a stream trace yields. -/
def yieldsOf (tr : List StreamItem) : List String :=
  tr.filterMap (fun it => match it with
    | .yieldChunk s => some s
    | .write _ => none)

/-! ## ChatAgent (agents/chat_agent.py)

`create_response` / `create_response_stream` only read the database (context
assembly) and call the text-generation collaborator; the collaborator's
output enters as an oracle (`llm_response`, resp. `llm_chunks`). -/

/-- `ChatAgent.process`: generate, then save the turn once. -/
def chat_process (llm_response : String) (user_id : Nat) (message : String) :
    String × List DbWrite :=
  (llm_response, [.addConv user_id "chat" message llm_response none])

/-- `ChatAgent.process_stream`: yield every chunk, then save the
concatenated turn once after the stream is exhausted. -/
def chat_process_stream (llm_chunks : List String) (user_id : Nat)
    (message : String) : List StreamItem :=
  (llm_chunks.map .yieldChunk) ++
    [.write (.addConv user_id "chat" message (String.join llm_chunks) none)]

/-- `BaseAgent.process_stream`, the default inherited implementation: it
returns `create_response_stream(user_id, message)` — the raw LLM chunk
stream — and performs no persistence at all. -/
def base_process_stream (llm_chunks : List String) (user_id : Nat)
    (message : String) : List StreamItem :=
  llm_chunks.map .yieldChunk

/-! ## ProductivityAgent (agents/productivity_agent.py) -/

/-- `ProductivityAgent._is_task_creation`. -/
def _is_task_creation (message : String) : Bool :=
  anyKw (lowerS message)
    ["create task", "add task", "new task", "remind me", "todo", "need to"]

/-- `ProductivityAgent._is_task_query`. -/
def _is_task_query (message : String) : Bool :=
  anyKw (lowerS message)
    ["my tasks", "show tasks", "list tasks", "what do i need", "what should i"]

/-- `ProductivityAgent._handle_task_creation`: ask the LLM for a structured
task, fall back to a raw-title task when parsing fails, then save the
conversation once. -/
def _handle_task_creation (llm_response : String) (user_id : Nat)
    (message : String) : String × List DbWrite :=
  let task_data := parse_json_response llm_response
  match task_data with
  | some (.pdict entries) =>
    if (PyVal.pdict entries) |> pyTruthy then
      let task : Task :=
        { task_id := 0, user_id := user_id,
          title := pyGetStr entries "title" "New Task",
          description := pyGetStrOpt entries "description",
          priority := pyGetStr entries "priority" "medium",
          status := "pending",
          due_date := pyGetStrOpt entries "due_date" }
      let response_text :=
        "✅ Task created: **" ++ task.title ++ "**\n" ++
        "Priority: " ++ upperS task.priority ++ "\n" ++
        (match task.due_date with
         | some d => "Due: " ++ d ++ "\n"
         | none => "") ++
        "\nI\x27ve added this to your task list!"
      (response_text,
       [.newTask user_id task.title task.description task.priority task.due_date,
        .addConv user_id "productivity" message response_text none])
    else
      let task : Task :=
        { task_id := 0, user_id := user_id, title := message.take 100,
          description := none, priority := "medium", status := "pending",
          due_date := none }
      let response_text := "✅ Task created: **" ++ task.title ++ "**"
      (response_text,
       [.newTask user_id task.title none "medium" none,
        .addConv user_id "productivity" message response_text none])
  | _ =>
    let task : Task :=
      { task_id := 0, user_id := user_id, title := message.take 100,
        description := none, priority := "medium", status := "pending",
        due_date := none }
    let response_text := "✅ Task created: **" ++ task.title ++ "**"
    (response_text,
     [.newTask user_id task.title none "medium" none,
      .addConv user_id "productivity" message response_text none])

/-- Priority rank used to sort pending tasks (high, medium, low). -/
def priorityRank (p : String) : Nat :=
  if p == "high" then 0 else if p == "medium" then 1 else if p == "low" then 2
  else 1

/-- Priority emoji used in the listing. -/
def priorityEmoji (p : String) : String :=
  if p == "high" then "🔴" else if p == "medium" then "🟡"
  else if p == "low" then "🟢" else "⚪"

/-- `ProductivityAgent._handle_task_query`: list pending tasks sorted by
priority (stable, like Python `sorted`), capped at 10, then save once. -/
def _handle_task_query (pending : List Task) (user_id : Nat)
    (message : String) : String × List DbWrite :=
  let response :=
    if pending.isEmpty then
      "You don\x27t have any pending tasks. Great job! 🎉"
    else
      let sorted_tasks :=
        pending.mergeSort (fun a b => priorityRank a.priority ≤ priorityRank b.priority)
      "📋 You have **" ++ toString pending.length ++ "** pending tasks:\n\n" ++
      String.join ((sorted_tasks.take 10).enum.map (fun p =>
        toString (p.1 + 1) ++ ". " ++ priorityEmoji p.2.priority ++ " **" ++
        p.2.title ++ "**" ++
        (match p.2.due_date with
         | some d => " (Due: " ++ d ++ ")"
         | none => "") ++ "\n"))
  (response, [.addConv user_id "productivity" message response none])

/-- `ProductivityAgent._handle_general_productivity`: generate with the
pending-task count as extra context, then save once. -/
def _handle_general_productivity (llm_response : String) (user_id : Nat)
    (message : String) : String × List DbWrite :=
  (llm_response, [.addConv user_id "productivity" message llm_response none])

/-- `ProductivityAgent.process`: classify the message, dispatch. -/
def productivity_process (llm_response : String) (pending : List Task)
    (user_id : Nat) (message : String) : String × List DbWrite :=
  if _is_task_creation message then
    _handle_task_creation llm_response user_id message
  else if _is_task_query message then
    _handle_task_query pending user_id message
  else
    _handle_general_productivity llm_response user_id message

/-- `ProductivityAgent.process_stream`: not overridden, so it is the
inherited `BaseAgent.process_stream` — the raw chunk stream, no write. -/
def productivity_process_stream (llm_chunks : List String) (user_id : Nat)
    (message : String) : List StreamItem :=
  base_process_stream llm_chunks user_id message

/-! ## MemoryAgent (agents/memory_agent.py) -/

/-- `MemoryAgent.process`: list stored memories (no LLM call), save once. -/
def memory_process (memories : List MemRow) (user_id : Nat)
    (message : String) : String × List DbWrite :=
  let response :=
    if memories.isEmpty then
      "I don\x27t have any stored memories about you yet. As we interact more, I\x27ll learn your preferences!"
    else
      "Here\x27s what I remember about you:\n\n" ++
      String.intercalate "\n"
        ((memories.take 20).map (fun m => "- " ++ m.key ++ ": " ++ m.value))
  (response, [.addConv user_id "memory" message response none])

/-- `MemoryAgent.process_stream`: not overridden, so it is the inherited
`BaseAgent.process_stream` — no write. -/
def memory_process_stream (llm_chunks : List String) (user_id : Nat)
    (message : String) : List StreamItem :=
  base_process_stream llm_chunks user_id message

/-- A write recorded by `MemoryAgent.extract_and_store_memories`
(`db.set_memory` with the JSON field values). -/
structure MemWrite where
  user_id : Nat
  key : PyVal
  value : PyVal
  context : Option PyVal
deriving Repr

/-- Is this JSON element accepted by the extraction loop
(`isinstance(memory_data, dict) and 'key' in it and 'value' in it`)? -/
def isValidMemoryItem : PyVal → Bool
  | .pdict entries => memHas entries "key" && memHas entries "value"
  | _ => false

/-- One iteration of the extraction storing loop: an element that is a
dict containing `key` and `value` is stored via `set_memory` and appended
to `stored_memories`; anything else is skipped. -/
def storeStep (user_id : Nat) (acc : List PyVal × List MemWrite)
    (md : PyVal) : List PyVal × List MemWrite :=
  match md with
  | .pdict entries =>
    if memHas entries "key" && memHas entries "value" then
      (acc.1 ++ [md],
       acc.2 ++ [{ user_id := user_id,
                   key := (pyGet entries "key").getD .pnull,
                   value := (pyGet entries "value").getD .pnull,
                   context := pyGet entries "context" }])
    else acc
  | _ => acc

/-- The post-parse half of `MemoryAgent.extract_and_store_memories`
(lines 92-111): the falsiness guard, the bare-dict wrap, and the storing
loop that drops elements missing `key` or `value`.  Iterating a JSON string
yields its one-character substrings (Python `for x in "ab"`); iterating a
non-iterable raises, which the surrounding `except` turns into `[]`. -/
def storeExtracted (memories_data : Option PyVal) (user_id : Nat) :
    List PyVal × List MemWrite :=
  match memories_data with
  | none => ([], [])
  | some v =>
    if !pyTruthy v then ([], [])
    else
      let items : List PyVal :=
        match v with
        | .pdict _ => [v]
        | .plist xs => xs
        | .pstr s => s.toList.map (fun c => PyVal.pstr (String.mk [c]))
        | _ => []
      items.foldl (storeStep user_id) ([], [])

/-- `MemoryAgent.extract_and_store_memories`: the whole body runs inside
`try/except`, so a raising LLM call yields `[]`; otherwise the response is
parsed with `parse_json_response` and handed to the storing loop.  Returns
the accepted elements and the `set_memory` writes performed. -/
def extract_and_store_memories (llm_result : Except String String)
    (user_id : Nat) : List PyVal × List MemWrite :=
  match llm_result with
  | .error _ => ([], [])
  | .ok response => storeExtracted (parse_json_response response) user_id

/-! ## CreativeAgent (agents/creative_agent.py) -/

/-- The persisted creative game state (`{'active_game': ..., 'game_data':
...}` as stored under the reserved `__creative_game_state` memory key). -/
structure GameState where
  active_game : Option String
  game_data : Option String
deriving Repr, DecidableEq

/-- `CreativeAgent._identify_creative_task`. -/
def _identify_creative_task (message : String) : String :=
  let m := lowerS message
  if anyKw m ["poem", "poetry", "verse"] then "poem"
  else if anyKw m ["story", "tale", "narrative"] then "story"
  else if anyKw m ["summary", "summarize", "tldr"] then "summary"
  else if anyKw m ["report", "analysis", "review"] then "report"
  else if anyKw m ["brainstorm", "ideas", "suggest"] then "brainstorming"
  else if pyIn "word chain" m then "word_chain"
  else if pyIn "riddle" m then "riddle"
  else if pyIn "hangman" m then "hangman"
  else if anyKw m ["game", "play"] then "word_game"
  else "general_creative"

/-- The game-type task identifiers. -/
def gameTaskTypes : List String := ["word_chain", "riddle", "hangman", "word_game"]

/-- The non-game creative task identifiers. -/
def nonGameTaskTypes : List String :=
  ["poem", "story", "summary", "report", "brainstorming", "general_creative"]

/-- `CreativeAgent.should_generate_image`. -/
def should_generate_image (task_type message : String) : Bool :=
  let image_worthy_tasks := ["story", "poem", "general_creative"]
  let explicit_request :=
    anyKw (lowerS message)
      ["image", "picture", "draw", "illustrate", "visualize", "imagine"]
  image_worthy_tasks.contains task_type || explicit_request

/-- `CreativeAgent.process`: load the game state, classify the task, update
the active game (a game-type task sets it, a non-game creative task clears
it), generate, optionally append an image embed (the image prompt
extraction and the image provider are external side calls, passed as the
oracle `image_embed`), save the turn, and always re-persist
`{'active_game': active_game}` at the end. -/
def creative_process (game_state : Option GameState) (llm_response : String)
    (image_embed : Option String) (user_id : Nat) (message : String) :
    String × List DbWrite :=
  let active0 := match game_state with
    | some gs => gs.active_game
    | none => none
  let task_type := _identify_creative_task message
  let active_game :=
    if gameTaskTypes.contains task_type then some task_type
    else if nonGameTaskTypes.contains task_type then none
    else active0
  let response := llm_response
  let response :=
    if should_generate_image task_type message then
      match image_embed with
      | some e => response ++ e
      | none => response
    else response
  (response,
   [.addConv user_id "creative" message response
      (some [("task_type", .pstr task_type),
             ("active_game",
              match active_game with
              | some g => .pstr g
              | none => .pnull)]),
    .putGameState user_id active_game])

/-- `CreativeAgent.process_stream`: same game-state logic as `process`, but
streaming — yield every LLM chunk; when an image is called for, yield the
progress notice, then (if a prompt was extracted, modelled by the oracle
`image_embed`) yield the embed — also appended to the saved response — and
the completion notice; finally save the turn once and always re-persist
`{'active_game': active_game}` as the last action. -/
def creative_process_stream (game_state : Option GameState)
    (llm_chunks : List String) (image_embed : Option String)
    (user_id : Nat) (message : String) : List StreamItem :=
  let active0 := match game_state with
    | some gs => gs.active_game
    | none => none
  let task_type := _identify_creative_task message
  let active_game :=
    if gameTaskTypes.contains task_type then some task_type
    else if nonGameTaskTypes.contains task_type then none
    else active0
  let full_response := String.join llm_chunks
  let imageTail : List StreamItem × String :=
    if should_generate_image task_type message then
      match image_embed with
      | some e =>
        ([.yieldChunk "\n\n🎨 **Generating image locally (this may take a few minutes)...**\n\n",
          .yieldChunk e,
          .yieldChunk "\n✅ **Image generation complete!**\n"],
         full_response ++ e)
      | none =>
        ([.yieldChunk "\n\n🎨 **Generating image locally (this may take a few minutes)...**\n\n"],
         full_response)
    else ([], full_response)
  (llm_chunks.map .yieldChunk) ++ imageTail.1 ++
    [.write (.addConv user_id "creative" message imageTail.2
       (some [("task_type", .pstr task_type),
              ("active_game",
               match active_game with
               | some g => .pstr g
               | none => .pnull)])),
     .write (.putGameState user_id active_game)]

/-! ## Orchestrator (agents/orchestrator.py) -/

/-- A routing decision (`{'primary_agent', 'secondary_agents', 'reasoning'}`). -/
structure RoutingDecision where
  primary_agent : String
  secondary_agents : List String
  reasoning : String
deriving Repr, DecidableEq

/-- The keys of the orchestrator's agent dictionary. -/
def knownAgents : List String :=
  ["chat", "productivity", "creative", "memory", "researcher", "knowledge"]

/-- The fallback router's productivity keyword set. -/
def productivityKeywords : List String :=
  ["task", "todo", "remind", "schedule", "deadline", "priority"]

/-- The fallback router's creative keyword set. -/
def creativeKeywords : List String :=
  ["poem", "story", "write", "create", "summary", "brainstorm", "ideas",
   "joke", "riddle", "game", "play", "fun", "image", "picture", "draw"]

/-- The fallback router's researcher keyword set. -/
def researcherKeywords : List String :=
  ["latest", "current", "news", "today", "now", "recent", "search",
   "who won", "what happened", "stock price", "weather", "score"]

/-- The fallback router's knowledge (document) keyword set. -/
def knowledgeKeywords : List String :=
  ["document", "pdf", "uploaded", "file", "according to"]

/-- The fallback router's memory-recall keyword set. -/
def memoryKeywords : List String :=
  ["remember", "what do you know", "my preferences", "tell me about me"]

/-- `Orchestrator._fallback_routing`: deterministic keyword routing in fixed
priority order, defaulting to chat.  A pure function of the message alone:
no generator call, no state. -/
def _fallback_routing (message : String) : RoutingDecision :=
  let message_lower := lowerS message
  if anyKw message_lower productivityKeywords then
    { primary_agent := "productivity", secondary_agents := [],
      reasoning := "Keyword match for productivity" }
  else if anyKw message_lower creativeKeywords then
    { primary_agent := "creative", secondary_agents := [],
      reasoning := "Keyword match for creative" }
  else if anyKw message_lower researcherKeywords then
    { primary_agent := "researcher", secondary_agents := [],
      reasoning := "Keyword match for researcher" }
  else if anyKw message_lower knowledgeKeywords then
    { primary_agent := "knowledge", secondary_agents := [],
      reasoning := "Keyword match for knowledge" }
  else if anyKw message_lower memoryKeywords then
    { primary_agent := "memory", secondary_agents := [],
      reasoning := "Keyword match for memory" }
  else
    { primary_agent := "chat", secondary_agents := [],
      reasoning := "Default to chat agent" }

/-- The synchronous orchestrator result. -/
structure OrchResult where
  response : String
  primary_agent : String
  secondary_responses : List (String × String)
  routing_reasoning : String
deriving Repr, DecidableEq

/-- `Orchestrator.process_message`: route (decision passed in, since tier 1
is an LLM call), dispatch to the primary agent — falling back to the chat
agent, and reporting `'chat'`, when the tag is unknown — then best-effort
secondary dispatch (failures swallowed).  `agentRun tag` is the oracle for
`self.agents[tag].process(user_id, message)`; a primary failure propagates. -/
def process_message (decision : RoutingDecision)
    (agentRun : String → Except String String) (user_id : Nat)
    (message : String) : Except String OrchResult :=
  let dispatch :=
    if knownAgents.contains decision.primary_agent then
      (agentRun decision.primary_agent, decision.primary_agent)
    else (agentRun "chat", "chat")
  match dispatch with
  | (.error e, _) => .error e
  | (.ok primary_response, primary_agent) =>
    let secondary_responses :=
      decision.secondary_agents.foldl (fun acc name =>
        if knownAgents.contains name && name != primary_agent then
          match agentRun name with
          | .ok r => acc ++ [(name, r)]
          | .error _ => acc
        else acc) []
    .ok { response := primary_response, primary_agent := primary_agent,
          secondary_responses := secondary_responses,
          routing_reasoning := decision.reasoning }

/-- One step of the streaming orchestrator generator: the three yielded
item shapes plus the internal effects that run between yields. -/
inductive OrchItem where
  | metadataItem (primary_agent : String) (routing_reasoning : String)
  | chunkItem (content : String)
  | agentEffect (w : DbWrite)
  | memoryUpdate (user_id : Nat) (message full_response : String)
  | completeItem (full_response : String)
deriving Repr

/-- Is this step an item the generator yields to its consumer? -/
def isYieldedItem : OrchItem → Bool
  | .metadataItem _ _ => true
  | .chunkItem _ => true
  | .completeItem _ => true
  | _ => false

/-- The orchestrator's view of one agent-stream step: empty chunks are not
yielded (`if chunk:`), writes surface as internal effects. -/
def orchStep : StreamItem → List OrchItem
  | .yieldChunk c => if c ≠ "" then [.chunkItem c] else []
  | .write w => [.agentEffect w]

/-- `full_response`: the concatenation of the non-empty chunks. -/
def fullResponseOf (tr : List StreamItem) : String :=
  String.join ((yieldsOf tr).filter (fun c => c ≠ ""))

/-- `Orchestrator.process_message_stream`: yield the metadata item first
(with the routing decision's tag, before any known-agent check), then the
primary agent's chunks (`self.agents.get(tag, chat)` falls back to the chat
agent's stream for an unknown tag), then run `_update_memories`, then yield
the completion item.  `agentStream tag` is the oracle for
`self.agents[tag].process_stream(user_id, message)` consumed to
exhaustion. -/
def process_message_stream (decision : RoutingDecision)
    (agentStream : String → List StreamItem) (user_id : Nat)
    (message : String) : List OrchItem :=
  let primary_agent := decision.primary_agent
  let tr := agentStream
    (if knownAgents.contains primary_agent then primary_agent else "chat")
  let full_response := fullResponseOf tr
  .metadataItem primary_agent decision.reasoning ::
    (tr.map orchStep).flatten ++
    [.memoryUpdate user_id message full_response,
     .completeItem full_response]

/-- The tag carried by a stream's leading metadata item, if any. -/
def metaTagOf (out : List OrchItem) : Option String :=
  match out.head? with
  | some (.metadataItem t _) => some t
  | _ => none

/-- The content fragments an orchestrator stream yields. -/
def fragmentsOf (out : List OrchItem) : List String :=
  out.filterMap (fun it => match it with
    | .chunkItem c => some c
    | _ => none)

/-- Is this item the internal `_update_memories` effect? -/
def isMemoryUpdate : OrchItem → Bool
  | .memoryUpdate _ _ _ => true
  | _ => false

/-! ## Rendering flat JSON arrays of objects

`MemoryAgent`'s extraction prompt requests a JSON array of flat objects
with string fields.  The renderer below produces exactly that shape, so the
behaviour of `parse_json_response` on such responses can be stated for the
whole family. -/

/-- Characters that need no JSON escaping and are not braces; keys and
values made of such characters keep the first-`{`/last-`}` slice honest. -/
def plainCharB (c : Char) : Bool :=
  c != '"' && c != '\\' && c != '{' && c != '}'

/-- All characters of the string are plain. -/
def plainStrB (s : String) : Bool := s.toList.all plainCharB

/-- Render a JSON string literal. -/
def renderStr (s : String) : List Char := '"' :: s.toList ++ ['"']

/-- Render one `"key": "value"` member. -/
def renderPair (kv : String × String) : List Char :=
  renderStr kv.1 ++ ':' :: ' ' :: renderStr kv.2

/-- Join rendered pieces with `", "`. -/
def sepByComma : List (List Char) → List Char
  | [] => []
  | [x] => x
  | x :: y :: xs => x ++ ',' :: ' ' :: sepByComma (y :: xs)

/-- Render a flat JSON object with string fields. -/
def renderObj (o : List (String × String)) : List Char :=
  '{' :: sepByComma (o.map renderPair) ++ ['}']

/-- Render a JSON array of flat objects — the exact response format the
memory-extraction prompt requests. -/
def renderArr (objs : List (List (String × String))) : List Char :=
  '[' :: sepByComma (objs.map renderObj) ++ [']']

/-- The `PyVal` a flat string object denotes. -/
def objVal (o : List (String × String)) : PyVal :=
  .pdict (o.map (fun kv => (kv.1, .pstr kv.2)))

/-! ## Sequences of `set_memory` writes (for the upsert claims) -/

/-- One requested `set_memory` write. -/
structure WriteReq where
  now : Nat
  user_id : Nat
  key : String
  value : String
  context : Option String
deriving Repr, DecidableEq

/-- Apply a sequence of `set_memory` writes to a table. -/
def applyWrites (table : List MemRow) (ws : List WriteReq) : List MemRow :=
  ws.foldl (fun t w => set_memory t w.now w.user_id w.key w.value w.context) table

/-- The last value/context written for `(user_id, key)` in a sequence. -/
def lastWriteFor (ws : List WriteReq) (user_id : Nat) (key : String) :
    Option (String × Option String) :=
  ((ws.filter (fun w => w.user_id == user_id && w.key == key)).getLast?).map
    (fun w => (w.value, w.context))

/-- The observable value/context of a `get_memory` result. -/
def valOf (r : Option MemRow) : Option (String × Option String) :=
  r.map (fun m => (m.value, m.context))

/-! ## Demonstration fixtures (used by counterexamples / evaluations) -/

/-- Older demo turn: short message and response. -/
def demoT1 : Conversation :=
  { conversation_id := 1, user_id := 1, timestamp := 1, agent_type := "chat",
    message := "hi", response := "first answer", metadata := none }

/-- Newer demo turn: its response is 201 characters long, below the
1500-character ceiling but above the 200-character cut. -/
def demoT2 : Conversation :=
  { conversation_id := 2, user_id := 1, timestamp := 2, agent_type := "chat",
    message := "again", response := String.mk (List.replicate 201 'b'),
    metadata := none }

/-- Demo table, in insertion (ascending timestamp) order. -/
def demoTable : List Conversation := [demoT1, demoT2]

/-- A routing decision whose primary tag is not a known agent. -/
def demoDecisionUnknown : RoutingDecision :=
  { primary_agent := "orchestrator", secondary_agents := [],
    reasoning := "llm picked an internal tag" }

/-- Per-agent demo streams: the chat agent's stream is distinguishable from
every other agent's. -/
def demoStreams (tag : String) : List StreamItem :=
  if tag == "chat" then [.yieldChunk "hi from chat"] else [.yieldChunk "not chat"]

/-- A known-tag demo decision (for stream-shape evaluations). -/
def demoDecisionChat : RoutingDecision :=
  { primary_agent := "chat", secondary_agents := [], reasoning := "greeting" }

/-- A well-formed extraction element. -/
def demoGoodItem : PyVal :=
  .pdict [("key", .pstr "favorite_food"), ("value", .pstr "pizza")]

/-- A mixed batch: one valid element, one non-dict, one dict missing
`value`. -/
def demoMemItems : List PyVal :=
  [demoGoodItem, .pstr "junk", .pdict [("key", .pstr "orphan")]]

/-- Two writes to the same `(user_id, key)`, then one to another key. -/
def demoWrites : List WriteReq :=
  [{ now := 1, user_id := 2, key := "color", value := "red", context := none },
   { now := 2, user_id := 2, key := "color", value := "blue",
     context := some "ctx" },
   { now := 3, user_id := 9, key := "color", value := "green", context := none }]

/-! # Helper lemmas -/

/-- The last `n` elements of a list, in order, form a suffix of it. -/
theorem reverse_take_reverse_suffix {α : Type} (l : List α) (n : Nat) :
    ((l.reverse.take n).reverse) <:+ l := by
  refine ⟨(l.reverse.drop n).reverse, ?_⟩
  rw [← List.reverse_append, List.take_append_drop, List.reverse_reverse]

/-! # Claims -/

set_option maxRecDepth 100000

/-- **C2, counterexample.**  The claim says `get_conversation_history`
returns the turns newest-first; on a two-turn table the head of the result
is the *older* turn. -/
theorem c2_head_is_oldest_turn :
    (get_conversation_history demoTable 1 50 none).head? = some demoT1 ∧
    demoT1.timestamp < demoT2.timestamp ∧ demoT1 ≠ demoT2 := by
  refine ⟨by decide, by decide, by decide⟩

/-- **C2, amended.**  `get_conversation_history` returns the user's most
recent `limit` turns — optionally filtered by agent tag — in
*chronological* order (oldest first): on a table kept in ascending
timestamp order the result is a suffix of the user's (filtered) rows, has
length `min limit (number of rows)`, and is itself ascending in
timestamp — callers must *not* reverse it again. -/
theorem c2_history_is_chronological (table : List Conversation)
    (user_id limit : Nat) (agent_type : Option String)
    (hsort : table.Pairwise (fun a b => a.timestamp ≤ b.timestamp)) :
    get_conversation_history table user_id limit agent_type <:+
      table.filter (convMatches user_id agent_type) ∧
    (get_conversation_history table user_id limit agent_type).length =
      min limit (table.filter (convMatches user_id agent_type)).length ∧
    (get_conversation_history table user_id limit agent_type).Pairwise
      (fun a b => a.timestamp ≤ b.timestamp) := by
  have hsuffix :
      get_conversation_history table user_id limit agent_type <:+
        table.filter (convMatches user_id agent_type) :=
    reverse_take_reverse_suffix _ limit
  refine ⟨hsuffix, ?_, ?_⟩
  · simp [get_conversation_history]
  · exact List.Pairwise.sublist hsuffix.sublist (hsort.filter _)

/-- **C2, witness** for the amended theorem, at a concrete sorted table. -/
theorem c2_history_is_chronological_witness :
    demoTable.Pairwise (fun a b => a.timestamp ≤ b.timestamp) ∧
    (get_conversation_history demoTable 1 1 none <:+
      demoTable.filter (convMatches 1 none) ∧
    (get_conversation_history demoTable 1 1 none).length =
      min 1 (demoTable.filter (convMatches 1 none)).length ∧
    (get_conversation_history demoTable 1 1 none).Pairwise
      (fun a b => a.timestamp ≤ b.timestamp)) :=
  ⟨by decide, c2_history_is_chronological demoTable 1 1 none (by decide)⟩

/-- **C1 (code bug), evaluation at the failing input.**  With two stored
turns — the newer one carrying a 201-character response — the assembled
context block presents the *newer* turn first (reverse-chronological, since
storage already returned chronological order and `get_user_context`
reverses again) and truncates the *latest* turn's response to 200
characters plus an ellipsis, while the *oldest* turn's response is the one
preserved unabridged.  This contradicts both spec sentences and the
function's own comments. -/
theorem c1_context_truncates_latest_and_reverses_order :
    demoT1.timestamp < demoT2.timestamp ∧
    demoT2.response.length = 201 ∧
    get_user_context { conversations := demoTable, memory := [] } 1 =
      "\nRecent Conversation History:\nUser: again\nAssistant: " ++
        String.mk (List.replicate 200 'b') ++
        "...\nUser: hi\nAssistant: first answer" := by
  refine ⟨by decide, by rfl, by rfl⟩

/-- **C3 (code bug), evaluation at the failing input.**  The productivity
and memory variants do not override `process_stream`, so they inherit
`BaseAgent.process_stream`, which returns the raw LLM chunk stream and
never calls `add_conversation`: their streaming path persists *zero* turns,
while their synchronous path and the chat variant's streaming path persist
exactly one. -/
theorem c3_streaming_productivity_never_persists :
    (productivity_process_stream ["You have ", "2 tasks"] 7
        "show my tasks").countP isAddConvStep = 0 ∧
    (memory_process_stream ["I remember your name"] 7
        "what do you know about me").countP isAddConvStep = 0 ∧
    (chat_process_stream ["hel", "lo"] 7 "hi").countP isAddConvStep = 1 ∧
    ((productivity_process "llm text" [] 7 "show my tasks").2).countP
        isAddConv = 1 := by
  refine ⟨by decide, by decide, by decide, by decide⟩

/-- **C5.**  The keyword-fallback router is total (always yields one of the
six agent tags) and evaluates its fixed keyword sets in the fixed priority
order productivity → creative → researcher (research) → knowledge
(document) → memory (memory-recall), first match wins, defaulting to chat.
Determinism and side-effect freedom hold by construction: the embedding is
a pure function of the message alone, with no generator oracle among its
arguments. -/
theorem c5_fallback_routing_total_and_prioritized (message : String) :
    ((_fallback_routing message).primary_agent ∈
      ["productivity", "creative", "researcher", "knowledge", "memory", "chat"]) ∧
    (anyKw (lowerS message) productivityKeywords = true →
      (_fallback_routing message).primary_agent = "productivity") ∧
    (anyKw (lowerS message) productivityKeywords = false →
      anyKw (lowerS message) creativeKeywords = true →
      (_fallback_routing message).primary_agent = "creative") ∧
    (anyKw (lowerS message) productivityKeywords = false →
      anyKw (lowerS message) creativeKeywords = false →
      anyKw (lowerS message) researcherKeywords = true →
      (_fallback_routing message).primary_agent = "researcher") ∧
    (anyKw (lowerS message) productivityKeywords = false →
      anyKw (lowerS message) creativeKeywords = false →
      anyKw (lowerS message) researcherKeywords = false →
      anyKw (lowerS message) knowledgeKeywords = true →
      (_fallback_routing message).primary_agent = "knowledge") ∧
    (anyKw (lowerS message) productivityKeywords = false →
      anyKw (lowerS message) creativeKeywords = false →
      anyKw (lowerS message) researcherKeywords = false →
      anyKw (lowerS message) knowledgeKeywords = false →
      anyKw (lowerS message) memoryKeywords = true →
      (_fallback_routing message).primary_agent = "memory") ∧
    (anyKw (lowerS message) productivityKeywords = false →
      anyKw (lowerS message) creativeKeywords = false →
      anyKw (lowerS message) researcherKeywords = false →
      anyKw (lowerS message) knowledgeKeywords = false →
      anyKw (lowerS message) memoryKeywords = false →
      _fallback_routing message =
        { primary_agent := "chat", secondary_agents := [],
          reasoning := "Default to chat agent" }) := by
  simp only [_fallback_routing]
  split_ifs with h1 h2 h3 h4 h5 <;> simp_all

/-- **C5, witness**: the routing facts instantiated at the spec's scenario
message, whose lowercase form contains the productivity keyword `remind`. -/
theorem c5_fallback_routing_witness :
    (_fallback_routing "Remind me to buy milk tomorrow").primary_agent =
      "productivity" :=
  (c5_fallback_routing_total_and_prioritized
    "Remind me to buy milk tomorrow").2.1 (by decide)

/-- The orchestrator's rendering of an agent stream yields exactly the
non-empty chunks, as `chunkItem`s. -/
theorem fragmentsOf_orchSteps (tr : List StreamItem) :
    fragmentsOf ((tr.map orchStep).flatten) =
      (yieldsOf tr).filter (fun c => c ≠ "") := by
  induction tr with
  | nil => rfl
  | cons a tl ih =>
    cases a with
    | yieldChunk s =>
      by_cases hs : s = "" <;>
        simp [orchStep, yieldsOf, fragmentsOf, hs, List.filterMap_append] <;>
        simpa [yieldsOf, fragmentsOf] using ih
    | write w =>
      simpa [orchStep, yieldsOf, fragmentsOf, List.filterMap_append] using ih

/-- The orchestrator's rendering of an agent stream contains no
`memoryUpdate` step. -/
theorem no_memoryUpdate_in_orchSteps (tr : List StreamItem) :
    ∀ x ∈ (tr.map orchStep).flatten, isMemoryUpdate x = false := by
  intro x hx
  rw [List.mem_flatten] at hx
  obtain ⟨l, hl, hxl⟩ := hx
  rw [List.mem_map] at hl
  obtain ⟨it, -, rfl⟩ := hl
  cases it with
  | yieldChunk s =>
    by_cases hs : s = ""
    · simp [orchStep, hs] at hxl
    · simp [orchStep, hs] at hxl
      rw [hxl]; rfl
  | write w =>
    simp [orchStep] at hxl
    rw [hxl]; rfl

/-- Keeping only yielded items of the rendered agent stream leaves exactly
the chunk items. -/
theorem yielded_of_orchSteps (tr : List StreamItem) :
    ((tr.map orchStep).flatten).filter isYieldedItem =
      ((yieldsOf tr).filter (fun c => c ≠ "")).map OrchItem.chunkItem := by
  induction tr with
  | nil => rfl
  | cons a tl ih =>
    cases a with
    | yieldChunk s =>
      by_cases hs : s = "" <;>
        simp [orchStep, yieldsOf, hs, List.filter_append, isYieldedItem] <;>
        simpa [yieldsOf] using ih
    | write w =>
      simpa [orchStep, yieldsOf, List.filter_append, isYieldedItem] using ih

/-- A list with a single `p`-marked element splits uniquely around it. -/
theorem eq_append_cons_unique {α : Type} (p : α → Bool) :
    ∀ (A : List α) (x : α) (B pre : List α) (y : α) (post : List α),
      A ++ x :: B = pre ++ y :: post →
      (∀ a ∈ A, p a = false) → (∀ b ∈ B, p b = false) →
      p x = true → p y = true → pre = A ∧ post = B := by
  intro A
  induction A with
  | nil =>
    intro x B pre y post heq hA hB hx hy
    cases pre with
    | nil =>
      simp only [List.nil_append, List.cons.injEq] at heq
      exact ⟨rfl, heq.2.symm⟩
    | cons p1 pre1 =>
      simp only [List.nil_append, List.cons_append, List.cons.injEq] at heq
      exfalso
      have hyB : y ∈ B := by
        rw [heq.2]
        exact List.mem_append.2 (Or.inr (List.mem_cons_self _ _))
      have := hB y hyB
      rw [hy] at this
      simp at this
  | cons a A' ih =>
    intro x B pre y post heq hA hB hx hy
    cases pre with
    | nil =>
      simp only [List.cons_append, List.nil_append, List.cons.injEq] at heq
      exfalso
      have := hA a (List.mem_cons_self _ _)
      rw [heq.1, hy] at this
      simp at this
    | cons p1 pre1 =>
      simp only [List.cons_append, List.cons.injEq] at heq
      obtain ⟨h1, h2⟩ := ih x B pre1 y post heq.2
        (fun b hb => hA b (List.mem_cons_of_mem _ hb)) hB hx hy
      exact ⟨by rw [heq.1, h1], h2⟩

/-- **C6, counterexample.**  With an unknown primary tag the *streamed*
metadata item still reports the unknown tag, even though dispatch fell back
to the chat agent (the fragments are the chat agent's): the reported
streaming tag is not the substituted chat tag, contradicting the claim's
"in both ... entry points". -/
theorem c6_stream_reports_unknown_tag :
    metaTagOf (process_message_stream demoDecisionUnknown demoStreams 1 "hello") =
      some "orchestrator" ∧
    knownAgents.contains "orchestrator" = false ∧
    fragmentsOf (process_message_stream demoDecisionUnknown demoStreams 1 "hello") =
      ["hi from chat"] ∧
    some "orchestrator" ≠ some "chat" := by
  refine ⟨by rfl, by decide, by rfl, by decide⟩

/-- **C6, amended.**  When routing resolves to an unknown tag, both entry
points dispatch to the chat agent; the *synchronous* result reports the
substituted tag `chat`, but the *streamed* metadata item reports the
original unknown tag. -/
theorem c6_unknown_tag_dispatch (decision : RoutingDecision)
    (agentRun : String → Except String String)
    (agentStream : String → List StreamItem) (user_id : Nat) (message : String)
    (h : knownAgents.contains decision.primary_agent = false) :
    (∀ r, agentRun "chat" = .ok r →
      process_message decision agentRun user_id message =
        .ok { response := r, primary_agent := "chat",
              secondary_responses :=
                decision.secondary_agents.foldl (fun acc name =>
                  if knownAgents.contains name && name != "chat" then
                    match agentRun name with
                    | .ok s => acc ++ [(name, s)]
                    | .error _ => acc
                  else acc) [],
              routing_reasoning := decision.reasoning }) ∧
    metaTagOf (process_message_stream decision agentStream user_id message) =
      some decision.primary_agent ∧
    fragmentsOf (process_message_stream decision agentStream user_id message) =
      (yieldsOf (agentStream "chat")).filter (fun c => c ≠ "") := by
  refine ⟨?_, ?_, ?_⟩
  · intro r hr
    have h2 : decision.primary_agent ∉ knownAgents := by simpa using h
    simp [process_message, h2, hr]
  · simp [process_message_stream, metaTagOf]
  · have h3 : ¬ (knownAgents.contains decision.primary_agent = true) := by
      rw [h]; exact Bool.false_ne_true
    have key := fragmentsOf_orchSteps (agentStream "chat")
    simp only [process_message_stream]
    rw [if_neg h3]
    simp only [fragmentsOf, List.filterMap_cons, List.filterMap_append] at key ⊢
    simpa using key

/-- **C6, witness** for the amended theorem at a concrete unknown tag. -/
theorem c6_unknown_tag_dispatch_witness :
    process_message demoDecisionUnknown (fun _ => .ok "hello back") 1 "hi" =
      .ok { response := "hello back", primary_agent := "chat",
            secondary_responses := [],
            routing_reasoning := "llm picked an internal tag" } ∧
    metaTagOf (process_message_stream demoDecisionUnknown demoStreams 1 "hi") =
      some "orchestrator" :=
  ⟨(c6_unknown_tag_dispatch demoDecisionUnknown (fun _ => .ok "hello back")
      demoStreams 1 "hi" (by decide)).1 "hello back" rfl,
   (c6_unknown_tag_dispatch demoDecisionUnknown (fun _ => .ok "hello back")
      demoStreams 1 "hi" (by decide)).2.1⟩

/-- **C4.**  One full consumption of `process_message_stream` yields, in
strict order, exactly one metadata item (carrying the routing decision's
tag and reasoning) first, then the content fragments, then exactly one
completion item whose `full_response` is the concatenation of exactly the
yielded fragments; and the `_update_memories` effect runs strictly after
every content fragment has been yielded (anything after it is only the
completion item). -/
theorem c4_stream_contract (decision : RoutingDecision)
    (agentStream : String → List StreamItem) (user_id : Nat)
    (message : String) :
    ((process_message_stream decision agentStream user_id message).filter
        isYieldedItem =
      OrchItem.metadataItem decision.primary_agent decision.reasoning ::
        (fragmentsOf (process_message_stream decision agentStream user_id
          message)).map OrchItem.chunkItem ++
        [OrchItem.completeItem (String.join (fragmentsOf
          (process_message_stream decision agentStream user_id message)))]) ∧
    (∀ (pre : List OrchItem) (u2 : Nat) (m2 fr : String)
        (post : List OrchItem),
      process_message_stream decision agentStream user_id message =
        pre ++ OrchItem.memoryUpdate u2 m2 fr :: post →
      ∀ c : String, OrchItem.chunkItem c ∉ post) := by
  have hout : process_message_stream decision agentStream user_id message =
      OrchItem.metadataItem decision.primary_agent decision.reasoning ::
        (((agentStream (if knownAgents.contains decision.primary_agent then
            decision.primary_agent else "chat")).map orchStep).flatten ++
          [OrchItem.memoryUpdate user_id message
            (fullResponseOf (agentStream
              (if knownAgents.contains decision.primary_agent then
                decision.primary_agent else "chat"))),
           OrchItem.completeItem
            (fullResponseOf (agentStream
              (if knownAgents.contains decision.primary_agent then
                decision.primary_agent else "chat")))]) := rfl
  set tr := agentStream (if knownAgents.contains decision.primary_agent then
    decision.primary_agent else "chat") with htr
  have hfrag : fragmentsOf (process_message_stream decision agentStream
      user_id message) = (yieldsOf tr).filter (fun c => c ≠ "") := by
    rw [hout]
    have key := fragmentsOf_orchSteps tr
    simp only [fragmentsOf, List.filterMap_cons, List.filterMap_append]
      at key ⊢
    simpa using key
  constructor
  · rw [hfrag, hout]
    have key := yielded_of_orchSteps tr
    simp [List.filter_cons, List.filter_append, isYieldedItem, key,
      fullResponseOf]
  · intro pre u2 m2 fr post heq c hc
    rw [hout] at heq
    have heq2 :
        (OrchItem.metadataItem decision.primary_agent decision.reasoning ::
          (tr.map orchStep).flatten) ++
          OrchItem.memoryUpdate user_id message (fullResponseOf tr) ::
            [OrchItem.completeItem (fullResponseOf tr)] =
        pre ++ OrchItem.memoryUpdate u2 m2 fr :: post := by
      simpa using heq
    have hsplit := eq_append_cons_unique isMemoryUpdate
      (OrchItem.metadataItem decision.primary_agent decision.reasoning ::
        (tr.map orchStep).flatten)
      (OrchItem.memoryUpdate user_id message (fullResponseOf tr))
      [OrchItem.completeItem (fullResponseOf tr)]
      pre (OrchItem.memoryUpdate u2 m2 fr) post heq2
      (by
        intro a ha
        rcases List.mem_cons.1 ha with h1 | h1
        · rw [h1]; rfl
        · exact no_memoryUpdate_in_orchSteps tr a h1)
      (by intro b hb; rcases List.mem_cons.1 hb with h1 | h1
          · rw [h1]; rfl
          · cases h1)
      rfl rfl
    rw [hsplit.2] at hc
    rcases List.mem_cons.1 hc with h1 | h1
    · cases h1
    · cases h1

/-- **C4, witness**: the streaming contract instantiated with a concrete
routing decision and a one-chunk agent stream. -/
theorem c4_stream_contract_witness :
    ((process_message_stream demoDecisionChat demoStreams 1 "hello").filter
        isYieldedItem =
      OrchItem.metadataItem "chat" "greeting" ::
        (fragmentsOf (process_message_stream demoDecisionChat demoStreams 1
          "hello")).map OrchItem.chunkItem ++
        [OrchItem.completeItem (String.join (fragmentsOf
          (process_message_stream demoDecisionChat demoStreams 1 "hello")))]) ∧
    (∀ c : String,
      OrchItem.chunkItem c ∉ [OrchItem.completeItem "hi from chat"]) :=
  ⟨(c4_stream_contract demoDecisionChat demoStreams 1 "hello").1,
   fun c => (c4_stream_contract demoDecisionChat demoStreams 1 "hello").2
     [.metadataItem "chat" "greeting", .chunkItem "hi from chat"] 1 "hello"
     "hi from chat" [.completeItem "hi from chat"] (by rfl) c⟩

/-- Every creative task type is either a game type or a non-game type. -/
theorem identify_creative_total (message : String) :
    gameTaskTypes.contains (_identify_creative_task message) = true ∨
    nonGameTaskTypes.contains (_identify_creative_task message) = true := by
  simp only [_identify_creative_task]
  split_ifs <;> decide

/-- The last element of a trace ending in two explicit items. -/
theorem getLast_tail_pair {α : Type} (l₁ l₂ : List α) (a b : α) :
    (l₁ ++ (l₂ ++ [a, b])).getLast? = some b := by
  rw [show l₁ ++ (l₂ ++ [a, b]) = ((l₁ ++ l₂) ++ [a]) ++ [b] from by simp]
  exact List.getLast?_concat _

/-- Pure chunk yields contain no `set_game_state` step. -/
theorem countP_yieldChunks_zero (ss : List String) :
    (ss.map StreamItem.yieldChunk).countP isPutGameStateStep = 0 := by
  rw [List.countP_map]
  exact List.countP_eq_zero.mpr (fun a _ => by
    simp [Function.comp, isPutGameStateStep])

/-- **C9.**  On every creative turn — synchronous `process` and streaming
`process_stream` alike — the trace re-persists the game state exactly once,
as the very last action of the turn; a game-type task sets the persisted
active game to that game type; any non-game task type clears it to `none`
on that very turn (even when a game was previously active). -/
theorem c9_creative_game_state (game_state : Option GameState)
    (llm_response : String) (llm_chunks : List String)
    (image_embed : Option String) (user_id : Nat) (message : String) :
    (((creative_process game_state llm_response image_embed user_id
         message).2).countP isPutGameState = 1 ∧
     (gameTaskTypes.contains (_identify_creative_task message) = true →
       ((creative_process game_state llm_response image_embed user_id
           message).2).getLast? =
         some (.putGameState user_id
           (some (_identify_creative_task message)))) ∧
     (gameTaskTypes.contains (_identify_creative_task message) = false →
       ((creative_process game_state llm_response image_embed user_id
           message).2).getLast? = some (.putGameState user_id none))) ∧
    ((creative_process_stream game_state llm_chunks image_embed user_id
        message).countP isPutGameStateStep = 1 ∧
     (gameTaskTypes.contains (_identify_creative_task message) = true →
       (creative_process_stream game_state llm_chunks image_embed user_id
           message).getLast? =
         some (.write (.putGameState user_id
           (some (_identify_creative_task message))))) ∧
     (gameTaskTypes.contains (_identify_creative_task message) = false →
       (creative_process_stream game_state llm_chunks image_embed user_id
           message).getLast? =
         some (.write (.putGameState user_id none)))) := by
  refine ⟨⟨?_, ?_, ?_⟩, ?_, ?_, ?_⟩
  · simp [creative_process, List.countP_cons, isPutGameState]
  · intro hg
    have hg2 : _identify_creative_task message ∈ gameTaskTypes := by simpa using hg
    simp [creative_process, hg2]
  · intro hg
    have hn : nonGameTaskTypes.contains (_identify_creative_task message) = true := by
      rcases identify_creative_total message with h | h
      · rw [h] at hg; exact absurd hg (by simp)
      · exact h
    have hg2 : _identify_creative_task message ∉ gameTaskTypes := by simpa using hg
    have hn2 : _identify_creative_task message ∈ nonGameTaskTypes := by simpa using hn
    simp [creative_process, hg2, hn2]
  · simp only [creative_process_stream]
    by_cases himg :
        should_generate_image (_identify_creative_task message) message = true
    · cases image_embed with
      | some e =>
        simp [himg, List.countP_append, countP_yieldChunks_zero,
          List.countP_cons, isPutGameStateStep, isPutGameState]
      | none =>
        simp [himg, List.countP_append, countP_yieldChunks_zero,
          List.countP_cons, isPutGameStateStep, isPutGameState]
    · simp [himg, List.countP_append, countP_yieldChunks_zero,
        List.countP_cons, isPutGameStateStep, isPutGameState]
  · intro hg
    have hg2 : _identify_creative_task message ∈ gameTaskTypes := by simpa using hg
    simp only [creative_process_stream]
    simp only [List.append_assoc]
    rw [getLast_tail_pair]
    simp [hg2]
  · intro hg
    have hn : nonGameTaskTypes.contains (_identify_creative_task message) = true := by
      rcases identify_creative_total message with h | h
      · rw [h] at hg; exact absurd hg (by simp)
      · exact h
    have hg2 : _identify_creative_task message ∉ gameTaskTypes := by simpa using hg
    have hn2 : _identify_creative_task message ∈ nonGameTaskTypes := by simpa using hn
    simp only [creative_process_stream]
    simp only [List.append_assoc]
    rw [getLast_tail_pair]
    simp [hg2, hn2]

/-- **C9, witness**: a user with an active riddle game asks for a poem; on
both the synchronous and the streaming path the turn's final action clears
the persisted active game. -/
theorem c9_creative_game_state_witness :
    ((creative_process (some { active_game := some "riddle", game_data := none })
        "Here is a poem" none 4 "write me a poem").2).getLast? =
      some (.putGameState 4 none) ∧
    (creative_process_stream
        (some { active_game := some "riddle", game_data := none })
        ["Here ", "is a poem"] none 4 "write me a poem").getLast? =
      some (.write (.putGameState 4 none)) :=
  ⟨(c9_creative_game_state
      (some { active_game := some "riddle", game_data := none })
      "Here is a poem" ["Here ", "is a poem"] none 4
      "write me a poem").1.2.2 (by decide),
   (c9_creative_game_state
      (some { active_game := some "riddle", game_data := none })
      "Here is a poem" ["Here ", "is a poem"] none 4
      "write me a poem").2.2.2 (by decide)⟩

/-- The extraction storing loop accepts exactly the valid elements, in
order, and performs one write per accepted element. -/
theorem storeStep_foldl (u : Nat) (xs : List PyVal) :
    ∀ acc : List PyVal × List MemWrite,
      ((xs.foldl (storeStep u) acc).1 =
        acc.1 ++ xs.filter isValidMemoryItem) ∧
      ((xs.foldl (storeStep u) acc).2.length =
        acc.2.length + (xs.filter isValidMemoryItem).length) := by
  induction xs with
  | nil => intro acc; simp
  | cons a l ih =>
    intro acc
    cases a with
    | pdict entries =>
      by_cases hv : (memHas entries "key" && memHas entries "value") = true
      · have h2 := ih (storeStep u acc (.pdict entries))
        simp [storeStep, hv, isValidMemoryItem, List.filter_cons] at h2 ⊢
        exact ⟨h2.1, h2.2.trans (by omega)⟩
      · have h2 := ih acc
        simp [storeStep, hv, isValidMemoryItem, List.filter_cons] at h2 ⊢
        exact h2
    | pnull => simpa [storeStep, isValidMemoryItem, List.filter_cons] using ih acc
    | pbool b => simpa [storeStep, isValidMemoryItem, List.filter_cons] using ih acc
    | pint n => simpa [storeStep, isValidMemoryItem, List.filter_cons] using ih acc
    | pstr s => simpa [storeStep, isValidMemoryItem, List.filter_cons] using ih acc
    | plist items => simpa [storeStep, isValidMemoryItem, List.filter_cons] using ih acc

/-- **C7.**  Memory extraction never propagates an exception: a raising LLM
call yields `[]` (swallowed by the `try/except`); a non-parseable response
yields `[]`; a bare JSON object is processed exactly as the one-element
array containing it; and in an array, every element that is not a dict or
lacks `key`/`value` is dropped while the valid ones are all kept, each with
one storage write. -/
theorem c7_extraction_defensive :
    (∀ (e : String) (u : Nat),
      extract_and_store_memories (.error e) u = ([], [])) ∧
    (∀ (r : String) (u : Nat), parse_json_response r = none →
      extract_and_store_memories (.ok r) u = ([], [])) ∧
    (∀ (fs : List (String × PyVal)) (u : Nat),
      storeExtracted (some (.pdict fs)) u =
        storeExtracted (some (.plist [.pdict fs])) u) ∧
    (∀ (xs : List PyVal) (u : Nat),
      ((storeExtracted (some (.plist xs)) u).1 =
        xs.filter isValidMemoryItem) ∧
      ((storeExtracted (some (.plist xs)) u).2.length =
        (xs.filter isValidMemoryItem).length)) := by
  refine ⟨?_, ?_, ?_, ?_⟩
  · intro e u; rfl
  · intro r u h
    simp [extract_and_store_memories, h, storeExtracted]
  · intro fs u
    cases fs with
    | nil => rfl
    | cons a l => rfl
  · intro xs u
    cases xs with
    | nil => simp [storeExtracted, pyTruthy]
    | cons a l =>
      have h := storeStep_foldl u (a :: l) ([], [])
      simpa [storeExtracted, pyTruthy] using h

/-- **C7, witness**: a prose response with no braces yields no memories,
and a mixed batch keeps exactly its valid element. -/
theorem c7_extraction_defensive_witness :
    extract_and_store_memories (.ok "The user mentioned no new facts.") 5 =
      ([], []) ∧
    (storeExtracted (some (.plist demoMemItems)) 5).1 = [demoGoodItem] ∧
    (storeExtracted (some (.plist demoMemItems)) 5).2.length = 1 :=
  ⟨c7_extraction_defensive.2.1 "The user mentioned no new facts." 5 (by rfl),
   ((c7_extraction_defensive.2.2.2 demoMemItems 5).1.trans (by rfl)),
   ((c7_extraction_defensive.2.2.2 demoMemItems 5).2.trans (by rfl))⟩

/-- The upsert's update branch touches neither `user_id` nor `key`, so the
row predicate is stable under it. -/
theorem memMatches_upd (now u2 : Nat) (k2 v : String) (c : Option String)
    (u : Nat) (k : String) (r : MemRow) :
    memMatches u k (if memMatches u2 k2 r then
      { r with value := v, context := c, last_updated := now } else r) =
      memMatches u k r := by
  by_cases hm : memMatches u2 k2 r = true
  · rw [if_pos hm]; rfl
  · rw [if_neg hm]

/-- `set_memory` preserves "at most one row per `(user_id, key)`". -/
theorem set_memory_countP (tbl : List MemRow) (now u : Nat) (k v : String)
    (c : Option String) (u2 : Nat) (k2 : String)
    (h : tbl.countP (memMatches u2 k2) ≤ 1) :
    (set_memory tbl now u k v c).countP (memMatches u2 k2) ≤ 1 := by
  unfold set_memory
  by_cases hany : tbl.any (memMatches u k) = true
  · rw [if_pos hany, List.countP_map]
    have : ((tbl.countP (memMatches u2 k2 ∘ fun r =>
        if memMatches u k r then
          { r with value := v, context := c, last_updated := now }
        else r))) = tbl.countP (memMatches u2 k2) := by
      apply List.countP_congr
      intro r _
      have h1 := memMatches_upd now u k v c u2 k2 r
      simp only [Function.comp]
      rw [h1]
    rw [this]; exact h
  · rw [if_neg hany, List.countP_append]
    have hall : ∀ r ∈ tbl, memMatches u k r = false := fun r hr =>
      Bool.eq_false_iff.2 (List.any_eq_false.1 (Bool.eq_false_iff.2 hany) r hr)
    by_cases hnew : memMatches u2 k2
        { memory_id := tbl.length + 1, user_id := u, key := k, value := v,
          context := c, last_updated := now } = true
    · have huk : u = u2 ∧ k = k2 := by
        simpa [memMatches] using hnew
      have hz : tbl.countP (memMatches u2 k2) = 0 := by
        rw [List.countP_eq_zero]
        intro r hr
        rw [← huk.1, ← huk.2]
        simp [hall r hr]
      simp [hz, List.countP_cons, hnew]
    · have hz : List.countP (memMatches u2 k2)
          [{ memory_id := tbl.length + 1, user_id := u, key := k, value := v,
             context := c, last_updated := now }] = 0 := by
        simp [List.countP_cons, hnew]
      rw [hz]
      omega

/-- After updating the matching rows, the first matching row carries the
new value and context. -/
theorem valOf_find_upd (now u : Nat) (k v : String) (c : Option String) :
    ∀ tbl : List MemRow, tbl.any (memMatches u k) = true →
      valOf ((tbl.map (fun r => if memMatches u k r then
          { r with value := v, context := c, last_updated := now }
        else r)).find? (memMatches u k)) = some (v, c) := by
  intro tbl
  induction tbl with
  | nil => intro h; simp at h
  | cons r rs ih =>
    intro h
    by_cases hm : memMatches u k r = true
    · simp only [List.map_cons]
      rw [if_pos hm]
      rw [List.find?_cons_of_pos _ (show memMatches u k
        { memory_id := r.memory_id, user_id := r.user_id, key := r.key,
          value := v, context := c, last_updated := now } = true from hm)]
      rfl
    · simp only [List.map_cons]
      rw [if_neg hm]
      rw [List.find?_cons_of_neg _ hm]
      apply ih
      simpa [hm] using h

/-- `set_memory` followed by `get_memory` on the same `(user_id, key)`
reads back exactly the written value and context. -/
theorem valOf_get_set_self (tbl : List MemRow) (now u : Nat) (k v : String)
    (c : Option String) :
    valOf (get_memory (set_memory tbl now u k v c) u k) = some (v, c) := by
  unfold set_memory get_memory
  by_cases hany : tbl.any (memMatches u k) = true
  · rw [if_pos hany]
    exact valOf_find_upd now u k v c tbl hany
  · rw [if_neg hany]
    have hnone : tbl.find? (memMatches u k) = none := by
      rw [List.find?_eq_none]
      intro r hr
      have := List.any_eq_false.1 (Bool.eq_false_iff.2 hany) r hr
      simpa using this
    rw [List.find?_append, hnone]
    have hsucc : memMatches u k
        { memory_id := tbl.length + 1, user_id := u, key := k, value := v,
          context := c, last_updated := now } = true := by
      simp [memMatches]
    rw [Option.none_or, List.find?_cons_of_pos _ hsucc]
    rfl

/-- A write to one `(user_id, key)` leaves lookups of every other
`(user_id, key)` unchanged. -/
theorem get_set_other (tbl : List MemRow) (now u : Nat) (k v : String)
    (c : Option String) (u2 : Nat) (k2 : String)
    (h : ¬(u2 = u ∧ k2 = k)) :
    get_memory (set_memory tbl now u k v c) u2 k2 =
      get_memory tbl u2 k2 := by
  unfold set_memory get_memory
  by_cases hany : tbl.any (memMatches u k) = true
  · rw [if_pos hany]
    clear hany
    induction tbl with
    | nil => rfl
    | cons r rs ih =>
      simp only [List.map_cons]
      by_cases hp : memMatches u2 k2 r = true
      · have hm : memMatches u k r = false := by
          by_contra hmm
          rw [Bool.not_eq_false] at hmm
          have e1 : r.user_id = u ∧ r.key = k := by simpa [memMatches] using hmm
          have e2 : r.user_id = u2 ∧ r.key = k2 := by simpa [memMatches] using hp
          exact h ⟨e2.1.symm.trans e1.1, e2.2.symm.trans e1.2⟩
        rw [if_neg (by rw [hm]; exact Bool.false_ne_true)]
        rw [List.find?_cons_of_pos _ hp, List.find?_cons_of_pos _ hp]
      · have hp2 : memMatches u2 k2 (if memMatches u k r then
            { r with value := v, context := c, last_updated := now }
          else r) = false := by
          rw [memMatches_upd]
          exact Bool.eq_false_iff.2 hp
        rw [List.find?_cons_of_neg _ (by rw [hp2]; exact Bool.false_ne_true),
          List.find?_cons_of_neg _ hp]
        exact ih
  · rw [if_neg hany]
    rw [List.find?_append]
    have hnew : memMatches u2 k2
        { memory_id := tbl.length + 1, user_id := u, key := k, value := v,
          context := c, last_updated := now } = false := by
      simp [memMatches]
      intro h1 h2
      exact h ⟨h1.symm, h2.symm⟩
    have : List.find? (memMatches u2 k2)
        [{ memory_id := tbl.length + 1, user_id := u, key := k, value := v,
           context := c, last_updated := now }] = none := by
      rw [List.find?_cons_of_neg _ (by rw [hnew]; exact Bool.false_ne_true)]
      rfl
    rw [this]
    exact Option.or_none

/-- A sequence of upserts reads back, per `(user_id, key)`, the last value
written — or the original table's value when the sequence never wrote that
key. -/
theorem applyWrites_lastWrite (u : Nat) (k : String) :
    ∀ (ws : List WriteReq) (tbl : List MemRow),
      valOf (get_memory (applyWrites tbl ws) u k) =
        (match lastWriteFor ws u k with
         | some vc => some vc
         | none => valOf (get_memory tbl u k)) := by
  intro ws
  induction ws with
  | nil => intro tbl; rfl
  | cons w ws ih =>
    intro tbl
    have hstep : applyWrites tbl (w :: ws) =
        applyWrites (set_memory tbl w.now w.user_id w.key w.value w.context)
          ws := rfl
    rw [hstep, ih]
    by_cases hws : ws.filter (fun x => x.user_id == u && x.key == k) = []
    · have hwsn : lastWriteFor ws u k = none := by
        simp [lastWriteFor, hws]
      rw [hwsn]
      by_cases hw : (w.user_id == u && w.key == k) = true
      · have h1 : w.user_id = u ∧ w.key = k := by simpa using hw
        have hlast : lastWriteFor (w :: ws) u k = some (w.value, w.context) := by
          simp [lastWriteFor, List.filter_cons, hw, hws]
        rw [hlast, ← h1.1, ← h1.2]
        exact valOf_get_set_self tbl w.now w.user_id w.key w.value w.context
      · have hlast : lastWriteFor (w :: ws) u k = none := by
          simp [lastWriteFor, List.filter_cons, hw, hws]
        rw [hlast]
        have hne : ¬(u = w.user_id ∧ k = w.key) := by
          intro hc
          exact hw (by simp [hc.1.symm, hc.2.symm])
        rw [get_set_other tbl w.now w.user_id w.key w.value w.context u k hne]
    · obtain ⟨f0, fs, hfs⟩ := List.exists_cons_of_ne_nil hws
      have hvc : lastWriteFor ws u k =
          some (((f0 :: fs).getLast (by simp)).value,
            ((f0 :: fs).getLast (by simp)).context) := by
        unfold lastWriteFor
        rw [hfs, List.getLast?_eq_getLast _ (by simp)]
        rfl
      rw [hvc]
      have hlast : lastWriteFor (w :: ws) u k =
          some (((f0 :: fs).getLast (by simp)).value,
            ((f0 :: fs).getLast (by simp)).context) := by
        by_cases hw : (w.user_id == u && w.key == k) = true
        · unfold lastWriteFor
          rw [List.filter_cons, if_pos hw, hfs, List.getLast?_cons_cons,
            List.getLast?_eq_getLast _ (by simp)]
          rfl
        · unfold lastWriteFor
          rw [List.filter_cons, if_neg hw, hfs,
            List.getLast?_eq_getLast _ (by simp)]
          rfl
      rw [hlast]

/-- Repeating an identical upsert is a no-op on the whole table. -/
theorem set_memory_idem (tbl : List MemRow) (now u : Nat) (k v : String)
    (c : Option String) :
    set_memory (set_memory tbl now u k v c) now u k v c =
      set_memory tbl now u k v c := by
  have hanyA : (set_memory tbl now u k v c).any (memMatches u k) = true := by
    unfold set_memory
    by_cases hany : tbl.any (memMatches u k) = true
    · rw [if_pos hany]
      obtain ⟨r, hr, hpr⟩ := List.any_eq_true.1 hany
      apply List.any_eq_true.2
      refine ⟨_, List.mem_map_of_mem _ hr, ?_⟩
      rw [memMatches_upd]
      exact hpr
    · rw [if_neg hany]
      apply List.any_eq_true.2
      refine ⟨_, List.mem_append.2 (Or.inr (List.mem_cons_self _ _)), ?_⟩
      simp [memMatches]
  have hval : ∀ r ∈ set_memory tbl now u k v c, memMatches u k r = true →
      r.value = v ∧ r.context = c ∧ r.last_updated = now := by
    intro r hr hpr
    unfold set_memory at hr
    by_cases hany : tbl.any (memMatches u k) = true
    · rw [if_pos hany] at hr
      obtain ⟨r0, hr0, rfl⟩ := List.mem_map.1 hr
      by_cases hm : memMatches u k r0 = true
      · rw [if_pos hm]
        exact ⟨rfl, rfl, rfl⟩
      · rw [if_neg hm] at hpr
        exact absurd hpr hm
    · rw [if_neg hany] at hr
      rcases List.mem_append.1 hr with h1 | h1
      · have := List.any_eq_false.1 (Bool.eq_false_iff.2 hany) r h1
        exact absurd hpr this
      · rcases List.mem_cons.1 h1 with h2 | h2
        · rw [h2]
          exact ⟨rfl, rfl, rfl⟩
        · cases h2
  conv_lhs => rw [set_memory]
  rw [if_pos hanyA]
  have hmap : (set_memory tbl now u k v c).map (fun r =>
      if memMatches u k r then
        { r with value := v, context := c, last_updated := now }
      else r) = (set_memory tbl now u k v c).map id := by
    apply List.map_congr_left
    intro r hr
    by_cases hm : memMatches u k r = true
    · rw [if_pos hm]
      obtain ⟨h1, h2, h3⟩ := hval r hr hm
      cases r
      simp_all
    · rw [if_neg hm]
      rfl
  rw [hmap, List.map_id]

/-- **C8.**  Memory storage is an upsert keyed by `(user_id, key)`: after
any sequence of `set_memory` writes starting from the empty table there is
at most one row per `(user_id, key)`; the stored value and context equal
the last ones written for that key (last-write-wins); and repeating an
identical write leaves the table — hence the stored value — unchanged. -/
theorem c8_memory_upsert (ws : List WriteReq) (u : Nat) (k : String) :
    ((applyWrites [] ws).countP (memMatches u k) ≤ 1) ∧
    (∀ (v : String) (c : Option String), lastWriteFor ws u k = some (v, c) →
      valOf (get_memory (applyWrites [] ws) u k) = some (v, c)) ∧
    (∀ (tbl : List MemRow) (now : Nat) (v : String) (c : Option String),
      set_memory (set_memory tbl now u k v c) now u k v c =
        set_memory tbl now u k v c) := by
  refine ⟨?_, ?_, ?_⟩
  · have hfold : ∀ (ws2 : List WriteReq) (tbl : List MemRow),
        tbl.countP (memMatches u k) ≤ 1 →
        (applyWrites tbl ws2).countP (memMatches u k) ≤ 1 := by
      intro ws2
      induction ws2 with
      | nil => intro tbl h; exact h
      | cons w rest ih =>
        intro tbl h
        exact ih _ (set_memory_countP tbl w.now w.user_id w.key w.value
          w.context u k h)
    exact hfold ws [] (by simp)
  · intro v c h
    rw [applyWrites_lastWrite u k ws [], h]
  · intro tbl now v c
    exact set_memory_idem tbl now u k v c

/-- **C8, witness**: two writes to the same key then one to another key;
the stored value for the key is the second (last) one written. -/
theorem c8_memory_upsert_witness :
    valOf (get_memory (applyWrites [] demoWrites) 2 "color") =
      some ("blue", some "ctx") :=
  (c8_memory_upsert demoWrites 2 "color").2.1 "blue" (some "ctx") (by decide)

/-- `skipWs` leaves a non-whitespace-headed input unchanged. -/
theorem skipWs_cons_not (c : Char) (cs : List Char) (h : isWsChar c = false) :
    skipWs (c :: cs) = c :: cs := by
  simp [skipWs, List.dropWhile_cons, h]

/-- `skipWs` drops a leading space. -/
theorem skipWs_space (cs : List Char) : skipWs (' ' :: cs) = skipWs cs := by
  simp [skipWs, List.dropWhile_cons, isWsChar]

/-- `String.mk` is left inverse to `String.toList`. -/
theorem strMk_toList (s : String) : String.mk s.toList = s := rfl

/-- Unpacking the plain-character predicate. -/
theorem plainCharB_spec (c : Char) (h : plainCharB c = true) :
    (c == '"') = false ∧ (c == '\\') = false ∧ (c == '{') = false ∧
      (c == '}') = false := by
  simp only [plainCharB, Bool.and_eq_true] at h
  obtain ⟨⟨⟨h1, h2⟩, h3⟩, h4⟩ := h
  exact ⟨(Bool.not_eq_true' _).mp h1, (Bool.not_eq_true' _).mp h2,
    (Bool.not_eq_true' _).mp h3, (Bool.not_eq_true' _).mp h4⟩

/-- A string of plain characters parses back to itself, stopping at the
closing quote. -/
theorem parseStrBody_plain :
    ∀ (s : List Char) (fl : Nat) (rest : List Char),
      s.all plainCharB = true → s.length + 1 ≤ fl →
      parseStrBody fl (s ++ '"' :: rest) = some (s, rest) := by
  intro s
  induction s with
  | nil =>
    intro fl rest _ hfl
    obtain ⟨g, rfl⟩ : ∃ g, fl = g + 1 := ⟨fl - 1, by omega⟩
    rw [List.nil_append]
    rfl
  | cons c s ih =>
    intro fl rest h hfl
    obtain ⟨g, rfl⟩ : ∃ g, fl = g + 1 := ⟨fl - 1, by simp at hfl; omega⟩
    rw [List.all_cons, Bool.and_eq_true] at h
    obtain ⟨hc, hb, -, -⟩ := plainCharB_spec c h.1
    rw [List.cons_append]
    simp only [parseStrBody]
    rw [if_neg (by rw [hc]; exact Bool.false_ne_true)]
    rw [if_neg (by rw [hb]; exact Bool.false_ne_true)]
    rw [ih g rest h.2 (by simp at hfl; omega)]
    rfl

/-- The separated render of a non-empty list of pairs starts with a
quote. -/
theorem sepByComma_pairs_head (kv : String × String)
    (rest : List (String × String)) :
    ∃ z, sepByComma ((kv :: rest).map renderPair) = '"' :: z := by
  cases rest with
  | nil => exact ⟨_, rfl⟩
  | cons b t =>
    refine ⟨kv.1.toList ++ '"' :: ':' :: ' ' :: '"' :: kv.2.toList ++ '"' ::
      ',' :: ' ' :: sepByComma ((b :: t).map renderPair), ?_⟩
    simp [sepByComma, renderPair, renderStr]

/-- `sepByComma` on two or more pieces. -/
theorem sepByComma_cons_cons (x y : List Char) (xs : List (List Char)) :
    sepByComma (x :: y :: xs) = x ++ ',' :: ' ' :: sepByComma (y :: xs) := rfl

/-- The render of one pair, written out. -/
theorem renderPair_eq (kv : String × String) :
    renderPair kv =
      '"' :: kv.1.toList ++ '"' :: ':' :: ' ' :: '"' :: kv.2.toList ++ ['"'] := by
  simp [renderPair, renderStr]

/-- Parsing the members render of a non-empty flat object yields exactly its
pairs (string-valued) and stops right after the closing brace. -/
theorem parseMembers_render :
    ∀ (o : List (String × String)) (rest : List Char) (fl : Nat),
      o ≠ [] →
      (∀ kv ∈ o, plainStrB kv.1 = true ∧ plainStrB kv.2 = true) →
      o.length + 1 ≤ fl →
      parseMembers fl (sepByComma (o.map renderPair) ++ '}' :: rest) =
        some (o.map (fun kv => (kv.1, PyVal.pstr kv.2)), rest) := by
  intro o
  induction o with
  | nil => intro rest fl h; exact absurd rfl h
  | cons kv o ih =>
    intro rest fl _ hplain hfl
    obtain ⟨g, rfl⟩ : ∃ g, fl = g + 2 := ⟨fl - 2, by simp at hfl; omega⟩
    have hk : kv.1.toList.all plainCharB = true := (hplain kv (by simp)).1
    have hv : kv.2.toList.all plainCharB = true := (hplain kv (by simp)).2
    cases o with
    | nil =>
      simp only [List.map_cons, List.map_nil, sepByComma, renderPair,
        renderStr, List.cons_append, List.append_assoc, List.nil_append]
      simp only [parseMembers]
      rw [if_pos (by decide)]
      rw [parseStrBody_plain kv.1.toList _ _ hk (by simp)]
      dsimp only
      rw [skipWs_cons_not ':' _ (by decide)]
      dsimp only
      rw [if_pos (by decide)]
      simp only [parseVal]
      rw [skipWs_space, skipWs_cons_not '"' _ (by decide)]
      dsimp only
      rw [if_neg (by decide), if_neg (by decide), if_pos (by decide)]
      rw [parseStrBody_plain kv.2.toList _ _ hv (by simp)]
      simp only [Option.map_some']
      rw [skipWs_cons_not '}' _ (by decide)]
      dsimp only
      rw [if_neg (by decide), if_pos (by decide)]
      simp [strMk_toList]
    | cons b t =>
      rw [List.map_cons, List.map_cons, sepByComma_cons_cons, renderPair_eq kv]
      simp only [List.cons_append, List.append_assoc, List.nil_append]
      simp only [parseMembers]
      rw [if_pos (by decide)]
      rw [parseStrBody_plain kv.1.toList _ _ hk (by simp)]
      dsimp only
      rw [skipWs_cons_not ':' _ (by decide)]
      dsimp only
      rw [if_pos (by decide)]
      simp only [parseVal]
      rw [skipWs_space, skipWs_cons_not '"' _ (by decide)]
      dsimp only
      rw [if_neg (by decide), if_neg (by decide), if_pos (by decide)]
      rw [parseStrBody_plain kv.2.toList _ _ hv (by simp)]
      simp only [Option.map_some']
      rw [skipWs_cons_not ',' _ (by decide)]
      dsimp only
      rw [if_pos (by decide)]
      rw [skipWs_space]
      rw [← List.map_cons]
      obtain ⟨z, hz⟩ := sepByComma_pairs_head b t
      have hz2 : sepByComma ((b :: t).map renderPair) ++ '}' :: rest =
          '"' :: (z ++ '}' :: rest) := by rw [hz]; rfl
      rw [hz2, skipWs_cons_not '"' _ (by decide), ← hz2]
      have ihu := ih rest (g + 1) (by simp) (fun p hp => hplain p (by simp [hp]))
        (by simp at hfl ⊢; omega)
      simp only [parseMembers] at ihu
      rw [ihu]
      simp [strMk_toList]

/-- Parsing the render of a flat object yields its `PyVal` and stops right
after the closing brace. -/
theorem parseVal_renderObj (o : List (String × String)) (rest : List Char)
    (fl : Nat)
    (hp : ∀ kv ∈ o, plainStrB kv.1 = true ∧ plainStrB kv.2 = true)
    (hfl : o.length + 2 ≤ fl) :
    parseVal fl (renderObj o ++ rest) = some (objVal o, rest) := by
  obtain ⟨g, rfl⟩ : ∃ g, fl = g + 1 := ⟨fl - 1, by omega⟩
  have hform : renderObj o ++ rest =
      '{' :: (sepByComma (o.map renderPair) ++ '}' :: rest) := by
    simp [renderObj]
  rw [hform]
  simp only [parseVal]
  rw [skipWs_cons_not '{' _ (by decide)]
  dsimp only
  rw [if_pos (by decide)]
  cases o with
  | nil =>
    simp only [List.map_nil, sepByComma, List.nil_append]
    rw [skipWs_cons_not '}' _ (by decide)]
    dsimp only
    rw [if_pos (by decide)]
    rfl
  | cons b t =>
    obtain ⟨z, hz⟩ := sepByComma_pairs_head b t
    have hz2 : sepByComma ((b :: t).map renderPair) ++ '}' :: rest =
        '"' :: (z ++ '}' :: rest) := by rw [hz]; rfl
    rw [hz2, skipWs_cons_not '"' _ (by decide)]
    dsimp only
    rw [if_neg (by decide)]
    rw [← hz2]
    rw [parseMembers_render (b :: t) rest g (by simp) hp
      (by simp at hfl ⊢; omega)]
    simp [objVal]

/-- Lower bound on the length of a rendered object. -/
theorem renderObj_length_ge (o : List (String × String)) :
    o.length + 2 ≤ (renderObj o).length := by
  have h : o.length ≤ (sepByComma (o.map renderPair)).length := by
    induction o with
    | nil => simp [sepByComma]
    | cons b t ih =>
      cases t with
      | nil =>
        simp [sepByComma, renderPair_eq]
      | cons c u =>
        rw [List.map_cons, List.map_cons, sepByComma_cons_cons,
          ← List.map_cons]
        simp only [List.length_append, List.length_cons] at ih ⊢
        omega
  have h2 : (renderObj o).length =
      (sepByComma (o.map renderPair)).length + 2 := by
    simp [renderObj]
  omega

/-- `firstIdx` misses a character that does not occur. -/
theorem firstIdx_not_mem (c : Char) :
    ∀ cs : List Char, c ∉ cs → firstIdx c cs = none := by
  intro cs
  induction cs with
  | nil => intro _; rfl
  | cons x xs ih =>
    intro h
    rw [List.mem_cons] at h
    push_neg at h
    have hx : (x == c) = false := by
      simp only [beq_eq_false_iff_ne, ne_eq]
      exact fun e => h.1 e.symm
    simp [firstIdx, hx, ih h.2]

/-- `firstIdx` finds the first occurrence. -/
theorem firstIdx_append_cons (c : Char) :
    ∀ (pre rest : List Char), c ∉ pre →
      firstIdx c (pre ++ c :: rest) = some pre.length := by
  intro pre
  induction pre with
  | nil =>
    intro rest _
    simp [firstIdx]
  | cons x xs ih =>
    intro rest h
    rw [List.mem_cons] at h
    push_neg at h
    have hx : (x == c) = false := by
      simp only [beq_eq_false_iff_ne, ne_eq]
      exact fun e => h.1 e.symm
    simp [firstIdx, hx, ih rest h.2]

/-- `lastIdx` misses a character that does not occur. -/
theorem lastIdx_not_mem (c : Char) (cs : List Char) (h : c ∉ cs) :
    lastIdx c cs = none := by
  unfold lastIdx
  rw [firstIdx_not_mem c _ (by simpa using h)]
  rfl

/-- `lastIdx` finds the last occurrence. -/
theorem lastIdx_append_cons (c : Char) (pre post : List Char)
    (h : c ∉ post) :
    lastIdx c (pre ++ c :: post) = some pre.length := by
  unfold lastIdx
  have hrev : (pre ++ c :: post).reverse = post.reverse ++ c :: pre.reverse := by
    simp
  rw [hrev, firstIdx_append_cons c post.reverse pre.reverse
    (by simpa using h)]
  simp only [Option.map_some', Option.some.injEq, List.length_append,
    List.length_cons, List.length_reverse]
  omega

/-- The joined render of a non-empty object list ends with a closing
brace. -/
theorem sepByComma_objs_last :
    ∀ objs : List (List (String × String)), objs ≠ [] →
      ∃ bi, sepByComma (objs.map renderObj) = bi ++ ['}'] := by
  intro objs
  induction objs with
  | nil => intro h; exact absurd rfl h
  | cons o t ih =>
    intro _
    cases t with
    | nil =>
      exact ⟨'{' :: sepByComma (o.map renderPair), by
        simp [sepByComma, renderObj]⟩
    | cons p u =>
      obtain ⟨bi, hbi⟩ := ih (by simp)
      refine ⟨renderObj o ++ ',' :: ' ' :: bi, ?_⟩
      rw [List.map_cons, List.map_cons, sepByComma_cons_cons,
        ← List.map_cons, hbi]
      simp

/-- The joined render of a non-empty object list starts with an opening
brace. -/
theorem sepByComma_objs_head (o : List (String × String))
    (t : List (List (String × String))) :
    ∃ bt, sepByComma ((o :: t).map renderObj) = '{' :: bt := by
  cases t with
  | nil => exact ⟨sepByComma (o.map renderPair) ++ ['}'], rfl⟩
  | cons p u =>
    refine ⟨(sepByComma (o.map renderPair) ++ ['}']) ++ ',' :: ' ' ::
      sepByComma ((p :: u).map renderObj), ?_⟩
    rw [List.map_cons, List.map_cons, sepByComma_cons_cons,
      ← List.map_cons]
    simp [renderObj]

/-- **C10.**  `parse_json_response` slices from the first `{` to the last
`}` and `json.loads`s the slice, returning `None` — never raising (the
embedding is a total function) — when the braces are absent or the slice is
invalid.  Consequently, for every response that is a well-formed JSON array
of two or more flat string objects (the exact format the memory-extraction
prompt requests, rendered with plain characters), the slice strips the
surrounding brackets, `json.loads` chokes on the comma after the first
object, parsing yields `None`, and `extract_and_store_memories` stores no
facts and returns the empty list. -/
theorem c10_array_response_parses_to_none :
    (∀ response : String, '{' ∉ response.toList →
      parse_json_response response = none) ∧
    (∀ response : String, '}' ∉ response.toList →
      parse_json_response response = none) ∧
    (∀ (objs : List (List (String × String))) (user_id : Nat),
      2 ≤ objs.length →
      (∀ o ∈ objs, ∀ kv ∈ o, plainStrB kv.1 = true ∧ plainStrB kv.2 = true) →
      parse_json_response (String.mk (renderArr objs)) = none ∧
      extract_and_store_memories (.ok (String.mk (renderArr objs)))
        user_id = ([], [])) := by
  refine ⟨?_, ?_, ?_⟩
  · intro r h
    simp only [parse_json_response]
    rw [firstIdx_not_mem '{' _ h]
  · intro r h
    simp only [parse_json_response]
    rw [lastIdx_not_mem '}' _ h]
    cases hf : firstIdx '{' r.toList with
    | none => rfl
    | some s => rfl
  · intro objs uid hlen hplain
    rcases objs with - | ⟨o1, - | ⟨o2, t⟩⟩
    · simp at hlen
    · simp at hlen
    obtain ⟨bt, hbt⟩ := sepByComma_objs_head o1 (o2 :: t)
    obtain ⟨bi, hbi⟩ := sepByComma_objs_last (o1 :: o2 :: t) (by simp)
    have hparse :
        parse_json_response (String.mk (renderArr (o1 :: o2 :: t))) = none := by
      simp only [parse_json_response]
      have htl : (String.mk (renderArr (o1 :: o2 :: t))).toList =
          '[' :: sepByComma ((o1 :: o2 :: t).map renderObj) ++ [']'] := rfl
      rw [htl]
      have hf1 : firstIdx '{'
          ('[' :: sepByComma ((o1 :: o2 :: t).map renderObj) ++ [']']) =
          some 1 := by
        rw [hbt]
        have := firstIdx_append_cons '{' ['['] (bt ++ [']']) (by decide)
        simpa using this
      have hl1 : lastIdx '}'
          ('[' :: sepByComma ((o1 :: o2 :: t).map renderObj) ++ [']']) =
          some (bi.length + 1) := by
        have h2 : ('[' :: sepByComma ((o1 :: o2 :: t).map renderObj) ++ [']'])
            = ('[' :: bi) ++ '}' :: [']'] := by
          rw [hbi]; simp
        rw [h2, lastIdx_append_cons '}' ('[' :: bi) [']'] (by decide)]
        rfl
      rw [hf1, hl1]
      dsimp only
      rw [if_pos (by omega)]
      have hslice :
          ((('[' :: sepByComma ((o1 :: o2 :: t).map renderObj) ++
            [']']).drop 1).take (bi.length + 1 + 1 - 1)) =
          sepByComma ((o1 :: o2 :: t).map renderObj) := by
        have hd : (('[' :: sepByComma ((o1 :: o2 :: t).map renderObj) ++
            [']']).drop 1) =
            sepByComma ((o1 :: o2 :: t).map renderObj) ++ [']'] := rfl
        rw [hd]
        have hlenb : bi.length + 1 + 1 - 1 =
            (sepByComma ((o1 :: o2 :: t).map renderObj)).length := by
          rw [hbi]
          simp
        rw [hlenb]
        exact List.take_left _ _
      rw [hslice]
      have hbody : sepByComma ((o1 :: o2 :: t).map renderObj) =
          renderObj o1 ++ ',' :: ' ' ::
            sepByComma ((o2 :: t).map renderObj) := by
        rw [List.map_cons, List.map_cons, sepByComma_cons_cons,
          ← List.map_cons]
      unfold jsonLoads
      rw [hbody]
      rw [parseVal_renderObj o1 _ _ (fun kv h => hplain o1 (by simp) kv h)
        (by
          have hge := renderObj_length_ge o1
          simp only [List.length_append, List.length_cons]
          omega)]
      dsimp only
      rw [skipWs_cons_not ',' _ (by decide)]
      rfl
    refine ⟨hparse, ?_⟩
    unfold extract_and_store_memories
    dsimp only
    rw [hparse]
    rfl

/-- **C10, witness**: a concrete two-object array — exactly the format the
extraction prompt requests — parses to `None` and stores nothing. -/
theorem c10_array_response_parses_to_none_witness :
    parse_json_response
      (String.mk (renderArr [[("food", "pizza")], [("color", "blue")]])) =
        none ∧
    extract_and_store_memories
      (.ok (String.mk (renderArr [[("food", "pizza")], [("color", "blue")]])))
        3 = ([], []) ∧
    parse_json_response "I could not find any new facts." = none :=
  ⟨(c10_array_response_parses_to_none.2.2
      [[("food", "pizza")], [("color", "blue")]] 3 (by decide)
      (by decide)).1,
   (c10_array_response_parses_to_none.2.2
      [[("food", "pizza")], [("color", "blue")]] 3 (by decide)
      (by decide)).2,
   c10_array_response_parses_to_none.1 "I could not find any new facts."
     (by decide)⟩

end Assistant
